import Mathlib
/-!
Verification of the heuristic schema-resolution / normalization and
aggregation engines of the standardize-journalism ETL repository.

Shallow embedding conventions:
* Python cell values are modelled by `PyVal` (None, float, int, str);
  floats are `PyFloat` with a rational for every finite double plus
  `nan` / `inf` / `-inf`.  Exact binary rounding of doubles is abstracted:
  rationals stand for finite doubles, which is faithful for every
  arithmetic step the claims exercise (sums, comparisons, `* 1000`,
  exact division).
* Functions that can raise in Python return `Except PyErr`.
* Python dict insertion order is modelled with association lists that
  append fresh keys at the end.
-/

set_option maxHeartbeats 1000000

namespace StdJourn

/-! ## Character and string utilities (Python `str` methods, `re` fragments) -/

/-- Whitespace characters recognized by Python's `str.strip` and `\s`. -/
def isWs (c : Char) : Bool :=
  c == ' ' || c == '\t' || c == '\n' || c == '\r' || c == '\x0b' || c == '\x0c'

/-- Drop whitespace from both ends of a character list. -/
def trimL (l : List Char) : List Char :=
  ((l.dropWhile isWs).reverse.dropWhile isWs).reverse

/-- Python `str.strip()`. -/
def trimStr (s : String) : String := ⟨trimL s.data⟩

/-- Python `str.lower()` (ASCII, which covers every header the code matches). -/
def lowerStr (s : String) : String := ⟨s.data.map Char.toLower⟩

/-- Python `str.upper()`. -/
def upperStr (s : String) : String := ⟨s.data.map Char.toUpper⟩

/-- Does `needle` occur at the head of `hay`? -/
def leadsWith : List Char → List Char → Bool
  | [], _ => true
  | _ :: _, [] => false
  | a :: as, b :: bs => a == b && leadsWith as bs

/-- Substring test on character lists (`needle in hay` for Python strings). -/
def hasSubL (needle : List Char) : List Char → Bool
  | [] => needle.isEmpty
  | b :: bs => leadsWith needle (b :: bs) || hasSubL needle bs

/-- Python's `needle in hay` on strings. -/
def hasSub (needle hay : String) : Bool := hasSubL needle.data hay.data

/-- Collapse every maximal whitespace run to a single space
(`re.sub(r"\s+", " ", ·)`). -/
def collapseL : List Char → List Char
  | [] => []
  | [c] => if isWs c then [' '] else [c]
  | a :: b :: t =>
    if isWs a && isWs b then collapseL (b :: t)
    else (if isWs a then ' ' else a) :: collapseL (b :: t)

/-- ASCII decimal digit test (`\d` of the regexes the code compiles,
`str.isdigit` on the ASCII data these files carry). -/
def isDigitB (c : Char) : Bool := 48 ≤ c.toNat && c.toNat ≤ 57

/-- Numeric value of a digit list, most significant first. -/
def digitsVal (l : List Char) : ℕ :=
  l.foldl (fun a c => 10 * a + (c.toNat - 48)) 0

/-- First maximal run of digits anywhere in the list
(`re.search(r"\d+", ·)`), or none. -/
def firstDigitRun : List Char → Option (List Char)
  | [] => Option.none
  | c :: t =>
    if isDigitB c then Option.some (c :: t.takeWhile isDigitB)
    else firstDigitRun t

/-- Does the list consist of exactly `'2' '0' d d` with `d` digits
(`re.fullmatch(r"20\d{2}", ·)`)? -/
def is20xxL (l : List Char) : Bool :=
  match l with
  | [a, b, c, d] => a == '2' && b == '0' && isDigitB c && isDigitB d
  | _ => false

/-- Year value of a `20\d{2}` match. -/
def val20xxL (l : List Char) : ℤ :=
  match l with
  | [_, _, c, d] => 2000 + 10 * ((c.toNat : ℤ) - 48) + ((d.toNat : ℤ) - 48)
  | _ => 0

/-- Leftmost, non-overlapping occurrences of `20\d{2}`
(`re.findall(r"(20\d{2})", ·)`). -/
def findAll20xx : List Char → List ℤ
  | [] => []
  | a :: b :: c :: d :: t =>
    if is20xxL [a, b, c, d] then val20xxL [a, b, c, d] :: findAll20xx t
    else findAll20xx (b :: c :: d :: t)
  | _ :: t => findAll20xx t

/-- Decimal digit character for `d < 10`. -/
def digitChar10 (d : ℕ) : Char :=
  if d = 0 then '0' else if d = 1 then '1' else if d = 2 then '2'
  else if d = 3 then '3' else if d = 4 then '4' else if d = 5 then '5'
  else if d = 6 then '6' else if d = 7 then '7' else if d = 8 then '8'
  else '9'

/-- Fuel-driven digit expansion (structural recursion, so that the
kernel can evaluate it; `n < fuel` always holds where it is used). -/
def natReprAux (fuel : ℕ) (n : ℕ) : List Char :=
  match fuel with
  | 0 => []
  | fuel' + 1 =>
    if n < 10 then [digitChar10 n]
    else natReprAux fuel' (n / 10) ++ [digitChar10 (n % 10)]

/-- Decimal representation of a natural number, most significant digit
first — the output of Python `str()` on a non-negative int. -/
def natRepr (n : ℕ) : List Char := natReprAux (n + 1) n

/-- Python `str()` on an int. -/
def intRepr (n : ℤ) : List Char :=
  if n < 0 then '-' :: natRepr n.natAbs else natRepr n.toNat

/-- Stable insertion: place `a` before the first element `b` with
`le a b`, so equal elements keep their original relative order. -/
def stIns {α : Type} (le : α → α → Bool) (a : α) : List α → List α
  | [] => [a]
  | b :: t => if le a b then a :: b :: t else b :: stIns le a t

/-- Stable sort by a boolean comparison — the specification of Python's
stable `sorted`/`list.sort` (with `reverse=True` modelled by flipping
the comparison, which also preserves the original order of ties, as
CPython does). -/
def stSort {α : Type} (le : α → α → Bool) : List α → List α
  | [] => []
  | a :: t => stIns le a (stSort le t)

/-! ## Python value model -/

/-- Python float: every finite double is a rational; plus the three
non-finite values. -/
inductive PyFloat where
  | fin (q : ℚ)
  | nan
  | inf
  | ninf
deriving DecidableEq, Repr

/-- Python cell values as they reach the parsing helpers. -/
inductive PyVal where
  | none
  | float (f : PyFloat)
  | int (n : ℤ)
  | str (s : String)
deriving DecidableEq, Repr

/-- Representation of a float by `str()`.  Integral doubles print as
`num.0` exactly as in Python; the digits of a non-integral double's
decimal form are abstracted (here: numerator, point, denominator),
faithful for the code because every use of `str(float)` only checks
year regexes, header keywords, `"CW"` or `"yes"/"no"` substrings, and a
Python float repr (always containing `.`, `e`, `inf` or `nan` and no
letters besides those) decides all of them the same way. -/
def floatRepr (q : ℚ) : String :=
  if q.den = 1 then ⟨intRepr q.num ++ ['.', '0']⟩
  else ⟨intRepr q.num ++ ['.'] ++ natRepr q.den⟩

/-- Python `str()` on the modelled values. -/
def pyStr : PyVal → String
  | .none => "None"
  | .int n => ⟨intRepr n⟩
  | .str s => s
  | .float (.fin q) => floatRepr q
  | .float .nan => "nan"
  | .float .inf => "inf"
  | .float .ninf => "-inf"

/-- Predicate `pd.isna`: true exactly on `None` and float NaN. -/
def pdIsNa : PyVal → Bool
  | .none => true
  | .float .nan => true
  | _ => false

/-- Python truthiness of a cell value; NaN is truthy. -/
def pyTruthy : PyVal → Bool
  | .none => false
  | .int n => n != 0
  | .str s => s != ""
  | .float (.fin q) => q != 0
  | .float _ => true

/-- Exceptions the embedded code can raise. -/
inductive PyErr where
  | valueError (msg : String)
  | overflowError (msg : String)
  | runtimeError (msg : String)
deriving DecidableEq, Repr

/-- Decidable equality for `Except`, so that concrete runs of the
raising helpers can be checked by evaluation. -/
instance {ε α : Type} [DecidableEq ε] [DecidableEq α] :
    DecidableEq (Except ε α) := fun a b =>
  match a, b with
  | .ok x, .ok y =>
    if h : x = y then Decidable.isTrue (by rw [h])
    else Decidable.isFalse (fun hc => h (Except.ok.inj hc))
  | .error e, .error f =>
    if h : e = f then Decidable.isTrue (by rw [h])
    else Decidable.isFalse (fun hc => h (Except.error.inj hc))
  | .ok _, .error _ => Decidable.isFalse (fun hc => Except.noConfusion hc)
  | .error _, .ok _ => Decidable.isFalse (fun hc => Except.noConfusion hc)

/-- Truncation toward zero, the behaviour of Python `int()` on a finite
float (integer division on ℤ is T-division, which is exactly that). -/
def ratTrunc (q : ℚ) : ℤ := q.num / (q.den : ℤ)

/-- Python `int()` on a float: raises on NaN and the infinities. -/
def pyIntOfFloat : PyFloat → Except PyErr ℤ
  | .fin q => .ok (ratTrunc q)
  | .nan => .error (.valueError "cannot convert float NaN to integer")
  | .inf => .error (.overflowError "cannot convert float infinity to integer")
  | .ninf => .error (.overflowError "cannot convert float infinity to integer")

/-- Canonical key of a hashable value for Python `dict` membership:
`5 == 5.0` holds across int/float, NaN never equals anything. -/
inductive PyKey where
  | unitK
  | strK (s : String)
  | numK (q : ℚ)
  | infK
  | ninfK
deriving DecidableEq, Repr

/-- Key of a value, none for NaN (which compares unequal to everything;
identity-based dict hits for the very same NaN object cannot occur here
because NaN motion ids are filtered out before keying). -/
def pyKey : PyVal → Option PyKey
  | .none => Option.some .unitK
  | .str s => Option.some (.strK s)
  | .int n => Option.some (.numK (n : ℚ))
  | .float (.fin q) => Option.some (.numK q)
  | .float .inf => Option.some .infK
  | .float .ninf => Option.some .ninfK
  | .float .nan => Option.none

/-- Python `==` as used for dict keys. -/
def pyEqb (a b : PyVal) : Bool :=
  match pyKey a, pyKey b with
  | Option.some x, Option.some y => x = y
  | _, _ => false

namespace CouncilVoting

/-- Normalized vote values. -/
inductive Vote where
  | yes
  | no
  | absent
deriving DecidableEq, Repr

/-- Vote-value normalization from `aggregate_vote_results`:
`vote_str = str(vote).strip().lower()`, then substring match,
`"yes"` before `"no"`, default Absent. -/
def normVote (vote : PyVal) : Vote :=
  let vote_str := lowerStr (trimStr (pyStr vote))
  if hasSub "yes" vote_str then .yes
  else if hasSub "no" vote_str then .no
  else .absent

/-- One row of the flat per-vote stream, projected at the columns the
aggregator reads (`row.get(motion_id_col)` etc.). -/
structure VoteRow where
  motion : PyVal
  vote : PyVal
  motionType : PyVal
  councillorCell : PyVal
  firstCell : PyVal
  lastCell : PyVal
deriving DecidableEq, Repr

/-- Which name columns were passed to `aggregate_vote_results`
(`councillor_col`, or the `first_name_col`/`last_name_col` pair). -/
structure AggCfg where
  useCouncillor : Bool
  useFirstLast : Bool
deriving DecidableEq, Repr

/-- Councillor-name resolution from `aggregate_vote_results`;
an empty resulting name is falsy and skips the row. -/
def buildName (cfg : AggCfg) (r : VoteRow) : Option String :=
  let n :=
    if cfg.useCouncillor && !(pdIsNa r.councillorCell) then
      pyStr r.councillorCell
    else if cfg.useFirstLast then
      if !(pdIsNa r.firstCell) && !(pdIsNa r.lastCell) then
        trimStr (pyStr r.firstCell ++ " " ++ pyStr r.lastCell)
      else ""
    else ""
  if n = "" then Option.none else Option.some n

/-- The lower-cased stripped motion type of a row. -/
def mtlOf (r : VoteRow) : String := lowerStr (trimStr (pyStr r.motionType))

/-- Per-councillor accumulator (`councillor_data` entry). -/
structure CData where
  councillorName : String
  finalVote : Option Vote
  triedToAmend : Bool
  amendYes : ℕ
  amendNo : ℕ
  triedToDefer : Bool
  triedToRefer : Bool
deriving DecidableEq, Repr

/-- Fresh accumulator for a councillor. -/
def initC (name : String) : CData :=
  { councillorName := name, finalVote := Option.none, triedToAmend := false,
    amendYes := 0, amendNo := 0, triedToDefer := false, triedToRefer := false }

/-- Adoption-row update of `final_vote` (the `"adopt item"` branch):
first vote sets it, a later No always wins, a later Yes only replaces
Absent, otherwise unchanged. -/
def adoptStep (cur : Option Vote) (v : Vote) : Option Vote :=
  match cur with
  | Option.none => Option.some v
  | Option.some c =>
    if v = .no then Option.some .no
    else if v = .yes ∧ c = .absent then Option.some .yes
    else Option.some c

/-- Motion-subtype dispatch on one row for one councillor accumulator. -/
def applyVote (mtl : String) (v : Vote) (c : CData) : CData :=
  if hasSub "adopt item" mtl then
    { c with finalVote := adoptStep c.finalVote v }
  else if hasSub "amend" mtl then
    let c := { c with triedToAmend := true }
    match v with
    | .yes => { c with amendYes := c.amendYes + 1 }
    | .no => { c with amendNo := c.amendNo + 1 }
    | .absent => c
  else if hasSub "defer" mtl then
    if v = .yes then { c with triedToDefer := true } else c
  else if hasSub "refer" mtl then
    if v = .yes then { c with triedToRefer := true } else c
  else c

/-- Per-motion accumulator: insertion-ordered councillor dict plus the
separate `councillor_order` list the code keeps. -/
structure MotionAcc where
  motionIdStr : String
  cdata : List (String × CData)
  order : List String
deriving DecidableEq, Repr

/-- Aggregator state: insertion-ordered `motions` dict. -/
abbrev AggState := List (PyVal × MotionAcc)

/-- Lookup in a string-keyed insertion-ordered dict. -/
def findS {α : Type} : List (String × α) → String → Option α
  | [], _ => Option.none
  | (k, v) :: t, c => if k = c then Option.some v else findS t c

/-- Update the entry of a string key in place. -/
def updateS {α : Type} : List (String × α) → String → (α → α) → List (String × α)
  | [], _, _ => []
  | (k, v) :: t, c, f =>
    if k = c then (k, f v) :: t else (k, v) :: updateS t c f

/-- Lookup in the motions dict under Python key equality. -/
def findP (st : AggState) (m : PyVal) : Option MotionAcc :=
  match st with
  | [] => Option.none
  | (k, a) :: t => if pyEqb k m then Option.some a else findP t m

/-- Update the motion entry of a key in place. -/
def updateP (st : AggState) (m : PyVal) (f : MotionAcc → MotionAcc) : AggState :=
  match st with
  | [] => []
  | (k, a) :: t =>
    if pyEqb k m then (k, f a) :: t else (k, a) :: updateP t m f

/-- Register-and-update step for one councillor inside a motion:
the code first inserts a fresh `councillor_data` entry (and appends to
`councillor_order`) when the name is new, then mutates it via
`applyVote`. -/
def stepMotion (name : String) (v : Vote) (mtl : String) (acc : MotionAcc) :
    MotionAcc :=
  let acc :=
    if (findS acc.cdata name).isSome then acc
    else { acc with cdata := acc.cdata ++ [(name, initC name)],
                    order := acc.order ++ [name] }
  { acc with cdata := updateS acc.cdata name (applyVote mtl v) }

/-- Registration of a motion id in the `motions` dict
(`if motion_id not in motions: motions[motion_id] = ...`). -/
def insertMotion (st : AggState) (mo : PyVal) : AggState :=
  if (findP st mo).isSome then st
  else st ++ [(mo, { motionIdStr := pyStr mo, cdata := [], order := [] })]

/-- Processing of one row of the stream inside `aggregate_vote_results`:
skip NaN motion ids, register the motion, resolve the councillor name
(skipping the row when it fails, with the motion entry kept), then
dispatch on the motion subtype. -/
def processRow (cfg : AggCfg) (st : AggState) (r : VoteRow) : AggState :=
  if pdIsNa r.motion then st
  else
    match buildName cfg r with
    | Option.none => insertMotion st r.motion
    | Option.some name =>
      updateP (insertMotion st r.motion) r.motion
        (stepMotion name (normVote r.vote) (mtlOf r))

/-- The row-scanning phase of `aggregate_vote_results`. -/
def aggregate (cfg : AggCfg) (rows : List VoteRow) : AggState :=
  rows.foldl (processRow cfg) []

/-- One emitted `CouncillorVote`; `final_vote` keeps its optional shape
so that the non-null invariant is expressible. -/
structure OutVote where
  councillorName : String
  finalVote : Option Vote
  triedToAmend : Bool
  amendYes : ℕ
  amendNo : ℕ
  triedToDefer : Bool
  triedToRefer : Bool
deriving DecidableEq, Repr

/-- One finalized decision record (before `run_etl` metadata). -/
structure MotionOut where
  motionId : String
  votes : List OutVote
  yesVotes : ℕ
  noVotes : ℕ
  absentVotes : ℕ
deriving DecidableEq, Repr

/-- The emitted shape of one councillor accumulator. -/
def outOfC (c : CData) : OutVote :=
  { councillorName := c.councillorName, finalVote := c.finalVote,
    triedToAmend := c.triedToAmend, amendYes := c.amendYes,
    amendNo := c.amendNo, triedToDefer := c.triedToDefer,
    triedToRefer := c.triedToRefer }

/-- Finalization loop over `councillor_order`: emit only councillors
with a non-null `final_vote`, tallying the three counters as it goes. -/
def finalizeFold (cdata : List (String × CData))
    (s : List OutVote × ℕ × ℕ × ℕ) (name : String) :
    List OutVote × ℕ × ℕ × ℕ :=
  match findS cdata name with
  | Option.none => s
  | Option.some c =>
    match c.finalVote with
    | Option.none => s
    | Option.some fv =>
      (s.1 ++ [outOfC c],
        s.2.1 + (if fv = .yes then 1 else 0),
        s.2.2.1 + (if fv = .no then 1 else 0),
        s.2.2.2 + (if fv = .yes ∨ fv = .no then 0 else 1))

/-- Finalization of one motion accumulator into the output record. -/
def finalizeMotion (acc : MotionAcc) : MotionOut :=
  let s := acc.order.foldl (finalizeFold acc.cdata) ([], 0, 0, 0)
  { motionId := acc.motionIdStr, votes := s.1,
    yesVotes := s.2.1, noVotes := s.2.2.1, absentVotes := s.2.2.2 }

/-- Model of `aggregate_vote_results`: scan all rows, then finalize each
motion, keeping dict order. -/
def aggregate_vote_results (cfg : AggCfg) (rows : List VoteRow) :
    List (PyVal × MotionOut) :=
  (aggregate cfg rows).map (fun p => (p.1, finalizeMotion p.2))

/-- Model of `calculate_vote_outcome`. -/
def calculate_vote_outcome (yes_votes no_votes absent_votes : ℕ) : String :=
  let total_votes := yes_votes + no_votes
  let _ := absent_votes
  if total_votes = 0 then "unknown"
  else if yes_votes > no_votes then "passed"
  else "failed"

/-- Observation: the current `final_vote` of a (motion, councillor) pair
in the state, collapsing "motion or councillor not registered" and
"registered with no adoption vote yet" to none. -/
def finalVoteOpt (st : AggState) (m : PyVal) (c : String) : Option Vote :=
  match findP st m with
  | Option.none => Option.none
  | Option.some acc =>
    match findS acc.cdata c with
    | Option.none => Option.none
    | Option.some cd => cd.finalVote

/-- Does this row carry an adoption vote of councillor `c` on motion `m`? -/
def rowAdopt (cfg : AggCfg) (r : VoteRow) (m : PyVal) (c : String) :
    List Vote :=
  if pdIsNa r.motion = false ∧ pyEqb r.motion m = true ∧
      buildName cfg r = Option.some c ∧ hasSub "adopt item" (mtlOf r) = true
  then [normVote r.vote] else []

/-- All adoption votes of a (motion, councillor) pair, in stream order. -/
def adoptVotesOf (cfg : AggCfg) (rows : List VoteRow) (m : PyVal)
    (c : String) : List Vote :=
  (rows.map (fun r => rowAdopt cfg r m c)).flatten

/-- One-row effect on the first-appearance list of motion `m`. -/
def stepAppear (cfg : AggCfg) (r : VoteRow) (m : PyVal)
    (acc : List String) : List String :=
  if pdIsNa r.motion = false ∧ pyEqb r.motion m = true then
    match buildName cfg r with
    | Option.none => acc
    | Option.some n => if n ∈ acc then acc else acc ++ [n]
  else acc

/-- First appearances of resolvable councillors among the rows of motion
`m` (rows of any subtype), the contents of `councillor_order`. -/
def firstAppear (cfg : AggCfg) (rows : List VoteRow) (m : PyVal) :
    List String :=
  rows.foldl (fun acc r => stepAppear cfg r m acc) []

/-! ### Order tracking (claim C10 machinery) -/

/-- The `councillor_order` list of a motion in the state. -/
def orderOf (st : AggState) (m : PyVal) : List String :=
  match findP st m with
  | Option.none => []
  | Option.some acc => acc.order

/-- Per-accumulator well-formedness: the order list is exactly the key
list of `councillor_data`, and every accumulator carries its own key as
`councillor_name`. -/
def accWF (acc : MotionAcc) : Prop :=
  acc.cdata.map Prod.fst = acc.order ∧
    ∀ q ∈ acc.cdata, (q.2 : CData).councillorName = q.1

/-- State well-formedness: every motion accumulator is well-formed. -/
def stWF (st : AggState) : Prop := ∀ p ∈ st, accWF (p.2 : MotionAcc)

/-! ### Finalization lemmas (claims C2 and C10) -/

/-- Is councillor `n` emitted from `cdata` (registered with a non-null
`final_vote`)? -/
def emitP (cdata : List (String × CData)) (n : String) : Bool :=
  match findS cdata n with
  | Option.none => false
  | Option.some cd => cd.finalVote.isSome

/-- Count invariant of the finalization fold: the three counters always
tally the emitted list, and every emitted vote is non-null. -/
def countsInv (s : List OutVote × ℕ × ℕ × ℕ) : Prop :=
  (∀ v ∈ s.1, (v : OutVote).finalVote.isSome = true) ∧
  s.2.1 = s.1.countP (fun v => decide (v.finalVote = Option.some Vote.yes)) ∧
  s.2.2.1 = s.1.countP (fun v => decide (v.finalVote = Option.some Vote.no)) ∧
  s.2.2.2 = s.1.countP (fun v => decide (v.finalVote = Option.some Vote.absent))

/-- Lookup in the finalized output list under Python key equality. -/
def findOut (l : List (PyVal × MotionOut)) (m : PyVal) : Option MotionOut :=
  match l with
  | [] => Option.none
  | (k, o) :: t => if pyEqb k m then Option.some o else findOut t m

end CouncilVoting

/-! ## Python `float(str)` (decimal core) -/

/-- Exponent suffix of a float literal: empty, or `e`/`E`, an optional
sign and a non-empty digit run.  Underscored digit groups (a rarely
used Python literal feature no spreadsheet cell uses) are not
modelled. -/
def parseExpTail (l : List Char) : Option ℤ :=
  match l with
  | [] => Option.some 0
  | c :: r =>
    if c == 'e' || c == 'E' then
      match r with
      | '+' :: r2 =>
        if r2 ≠ [] ∧ r2.all isDigitB then Option.some (digitsVal r2)
        else Option.none
      | '-' :: r2 =>
        if r2 ≠ [] ∧ r2.all isDigitB then Option.some (-(digitsVal r2 : ℤ))
        else Option.none
      | r2 =>
        if r2 ≠ [] ∧ r2.all isDigitB then Option.some (digitsVal r2)
        else Option.none
    else Option.none

/-- The exact rational value `mant / 10^fracLen * 10^e` of a decimal
literal whose digits (integer and fractional part concatenated) have
value `mant`, written with `mkRat` so that it evaluates by kernel
reduction. -/
def sciToRat (mant : ℕ) (fracLen : ℕ) (e : ℤ) : ℚ :=
  if 0 ≤ e then mkRat ((mant : ℤ) * 10 ^ e.toNat) (10 ^ fracLen)
  else mkRat (mant : ℤ) (10 ^ fracLen * 10 ^ (-e).toNat)

/-- Unsigned decimal mantissa with optional fraction and exponent. -/
def pyFloatCore (l : List Char) : Option ℚ :=
  let ip := l.takeWhile isDigitB
  let r1 := l.dropWhile isDigitB
  match r1 with
  | '.' :: r2 =>
    let fp := r2.takeWhile isDigitB
    let r3 := r2.dropWhile isDigitB
    if ip.isEmpty && fp.isEmpty then Option.none
    else
      (parseExpTail r3).map (fun e =>
        sciToRat (digitsVal ip * 10 ^ fp.length + digitsVal fp) fp.length e)
  | _ =>
    if ip.isEmpty then Option.none
    else (parseExpTail r1).map (fun e => sciToRat (digitsVal ip) 0 e)

/-- Python `float(str)`: strip, optional sign, then either a named
non-finite value (case-insensitive) or a decimal literal. -/
def pyFloatOfString (s : String) : Option PyFloat :=
  let l := trimL s.data
  let sgn : Bool × List Char :=
    match l with
    | '+' :: r => (false, r)
    | '-' :: r => (true, r)
    | r => (false, r)
  let neg := sgn.1
  let l2 := sgn.2
  let low := l2.map Char.toLower
  if low = "inf".data || low = "infinity".data then
    Option.some (if neg then PyFloat.ninf else PyFloat.inf)
  else if low = "nan".data then Option.some PyFloat.nan
  else (pyFloatCore l2).map (fun q => PyFloat.fin (if neg then -q else q))

/-- Negation of a float (`-number`). -/
def pyNeg : PyFloat → PyFloat
  | .fin q => .fin (-q)
  | .nan => .nan
  | .inf => .ninf
  | .ninf => .inf

/-- Multiplication of a float by 1000 (`amount_raw * 1000`), written
with `mkRat` (the value equals `q * 1000`, see `pyMul1000_eq`). -/
def pyMul1000 : PyFloat → PyFloat
  | .fin q => .fin (mkRat (q.num * 1000) q.den)
  | .nan => .nan
  | .inf => .inf
  | .ninf => .ninf

/-- Python `== 0` on a float value. -/
def pyIsZero : PyFloat → Bool
  | .fin q => q = 0
  | _ => false

namespace CapitalByWard

/-- Model of `parse_number` in `capital_by_ward_etl.py`: null for
None/NaN, floats pass through, strings go through the null set
{na, n/a}, parenthesis negation, `$`/`,` stripping and `float()`. -/
def parse_number (value : PyVal) : Option PyFloat :=
  match value with
  | .none => Option.none
  | .float .nan => Option.none
  | .float f => Option.some f
  | .int n => Option.some (.fin (n : ℚ))
  | .str s =>
    let text := trimL s.data
    if text.isEmpty || text.map Char.toLower = "na".data ||
        text.map Char.toLower = "n/a".data then Option.none
    else
      let isNeg := text.head? = Option.some '(' &&
        text.getLast? = Option.some ')'
      let text2 := if isNeg then (text.drop 1).dropLast else text
      let cleaned := text2.filter (fun c => !(c == '$' || c == ','))
      match pyFloatOfString ⟨cleaned⟩ with
      | Option.none => Option.none
      | Option.some f => Option.some (if isNeg then pyNeg f else f)

/-- Model of `parse_ward_number`: null for None/NaN, `int()` on
numbers (which raises on infinities), first digit run of a string. -/
def parse_ward_number (value : PyVal) : Except PyErr (Option ℤ) :=
  match value with
  | .none => .ok Option.none
  | .float .nan => .ok Option.none
  | .float f => (pyIntOfFloat f).map (fun n => Option.some n)
  | .int n => .ok (Option.some n)
  | .str s =>
    match firstDigitRun s.data with
    | Option.none => .ok Option.none
    | Option.some ds => .ok (Option.some (digitsVal ds))

/-- Year value of a stripped text under `re.fullmatch(r"20\d{2}", ·)`. -/
def year20xxOfText (l : List Char) : Option ℤ :=
  if is20xxL (trimL l) then Option.some (val20xxL (trimL l)) else Option.none

/-- Model of `detect_year_value`: `int(column) == column` is evaluated
first for numbers, so NaN raises ValueError and the infinities raise
OverflowError; whole numbers in [2000, 2100] are returned directly and
everything else falls through to the `20\d{2}` match on `str(column)`. -/
def detect_year_value (column : PyVal) : Except PyErr (Option ℤ) :=
  match column with
  | .int n =>
    if 2000 ≤ n ∧ n ≤ 2100 then .ok (Option.some n)
    else .ok (year20xxOfText (intRepr n))
  | .float .nan =>
    .error (.valueError "cannot convert float NaN to integer")
  | .float .inf =>
    .error (.overflowError "cannot convert float infinity to integer")
  | .float .ninf =>
    .error (.overflowError "cannot convert float infinity to integer")
  | .float (.fin q) =>
    if (ratTrunc q : ℚ) = q ∧ 2000 ≤ ratTrunc q ∧ ratTrunc q ≤ 2100 then
      .ok (Option.some (ratTrunc q))
    else .ok (year20xxOfText (floatRepr q).data)
  | .none => .ok (year20xxOfText (pyStr PyVal.none).data)
  | .str s => .ok (year20xxOfText s.data)

/-- Model of `normalize_column`: collapse whitespace runs, strip,
lowercase. -/
def normalize_column (name : PyVal) : String :=
  lowerStr ⟨trimL (collapseL (pyStr name).data)⟩

/-- Fullmatch of `year\s*\d{1,2}` against an already normalized header
(whose whitespace is collapsed to single spaces), returning the digit
value (`int(re.sub(r"\D", "", normalized))`). -/
def matchYearOffset (s : String) : Option ℕ :=
  match s.data with
  | 'y' :: 'e' :: 'a' :: 'r' :: rest =>
    let rest2 := match rest with
      | ' ' :: r => r
      | r => r
    if rest2 ≠ [] ∧ rest2.all isDigitB ∧ rest2.length ≤ 2 then
      Option.some (digitsVal rest2)
    else Option.none
  | _ => Option.none

/-- The non-year column role mapping of `build_column_map`; later
matches overwrite earlier ones, as dict assignment does. -/
structure ColMap where
  ward_number : Option PyVal := Option.none
  ward_name : Option PyVal := Option.none
  program_name : Option PyVal := Option.none
  project_name : Option PyVal := Option.none
  sub_project_name : Option PyVal := Option.none
  category : Option PyVal := Option.none
  total_10_year : Option PyVal := Option.none
deriving DecidableEq, Repr

/-- Insertion-ordered int-keyed dict upsert (assignment keeps the
original position of an existing key, appends a new one). -/
def upsertZ (l : List (ℤ × PyVal)) (k : ℤ) (v : PyVal) : List (ℤ × PyVal) :=
  match l with
  | [] => [(k, v)]
  | (k', v') :: t => if k' = k then (k', v) :: t else (k', v') :: upsertZ t k v

/-- Same for the `year {k}` offset dict. -/
def upsertN (l : List (ℕ × PyVal)) (k : ℕ) (v : PyVal) : List (ℕ × PyVal) :=
  match l with
  | [] => [(k, v)]
  | (k', v') :: t => if k' = k then (k', v) :: t else (k', v') :: upsertN t k v

/-- Lookup in the explicit-year dict. -/
def lookupZ (l : List (ℤ × PyVal)) (k : ℤ) : Option PyVal :=
  match l with
  | [] => Option.none
  | (k', v) :: t => if k' = k then Option.some v else lookupZ t k

/-- Left fold in the `Except` monad, stopping at the first raised
exception, written as an explicit match. -/
def foldlME {α β ε : Type} (step : β → α → Except ε β) :
    List α → β → Except ε β
  | [], acc => .ok acc
  | a :: t, acc =>
    match step acc a with
    | .error e => .error e
    | .ok acc1 => foldlME step t acc1

/-- One header of `build_column_map`'s loop. -/
def columnStep (acc : ColMap × List (ℤ × PyVal) × List (ℕ × PyVal))
    (col : PyVal) :
    Except PyErr (ColMap × List (ℤ × PyVal) × List (ℕ × PyVal)) :=
  let (cm, byYear, byOffset) := acc
  match detect_year_value col with
  | .error e => .error e
  | .ok (Option.some y) => .ok (cm, upsertZ byYear y col, byOffset)
  | .ok Option.none =>
    let normalized := normalize_column col
    if normalized = "ward number" ∨ normalized = "ward no" ∨
        normalized = "ward #" then
      .ok ({ cm with ward_number := Option.some col }, byYear, byOffset)
    else if normalized = "ward" ∨ normalized = "ward name" then
      .ok ({ cm with ward_name := Option.some col }, byYear, byOffset)
    else if hasSub "program" normalized && hasSub "name" normalized then
      .ok ({ cm with program_name := Option.some col }, byYear, byOffset)
    else if normalized = "project name" then
      .ok ({ cm with project_name := Option.some col }, byYear, byOffset)
    else if hasSub "sub" normalized && hasSub "project" normalized then
      .ok ({ cm with sub_project_name := Option.some col }, byYear, byOffset)
    else if normalized = "category" then
      .ok ({ cm with category := Option.some col }, byYear, byOffset)
    else
      match matchYearOffset normalized with
      | Option.some yi =>
        if 1 ≤ yi ∧ yi ≤ 10 then .ok (cm, byYear, upsertN byOffset yi col)
        else .ok (cm, byYear, byOffset)
      | Option.none =>
        if normalized = "total 10 year" ∨ normalized = "total 10 years" then
          .ok ({ cm with total_10_year := Option.some col }, byYear, byOffset)
        else .ok (cm, byYear, byOffset)

/-- Model of `build_column_map` (propagating the exceptions
`detect_year_value` can raise). -/
def build_column_map (columns : List PyVal) :
    Except PyErr (ColMap × List (ℤ × PyVal) × List (ℕ × PyVal)) :=
  foldlME columnStep columns ({}, [], [])

/-- One row of a worksheet, as the cells `row.get(col)` can see. -/
abbrev Row := List (PyVal × PyVal)

/-- Cell of a row at a column label (missing column reads as None). -/
def rowGet (r : Row) (c : PyVal) : PyVal :=
  match r with
  | [] => PyVal.none
  | (k, v) :: t => if pyEqb k c then v else rowGet t c

/-- A worksheet: ordered column labels plus rows. -/
structure DataFrame where
  columns : List PyVal
  rows : List Row
deriving DecidableEq, Repr

/-- One canonical capital fact record. -/
structure CapRecord where
  fiscal_year : ℤ
  ward_number : ℤ
  ward_name : String
  amount : PyFloat
  year_offset : Option ℤ
  source_file : String
  source_url : String
  ingested_at : String
  program_name : Option String
  project_name : Option String
  category : Option String
deriving DecidableEq, Repr

/-- Ward-number resolution of one row: the `CW` sentinel maps to 0
before `parse_ward_number` runs. -/
def wardStep (wardNumCol : PyVal) (r : Row) : Except PyErr (Option ℤ) :=
  let raw := rowGet r wardNumCol
  if trimStr (upperStr (pyStr raw)) = "CW" then .ok (Option.some 0)
  else parse_ward_number raw

/-- Sorted keys of the explicit-year dict (`sorted(year_columns_by_year)`). -/
def sortedKeysZ (l : List (ℤ × PyVal)) : List ℤ :=
  stSort (fun a b => a ≤ b) (l.map Prod.fst)

/-- Sorted items of the offset dict (`sorted(year_columns_by_offset.items())`). -/
def sortedItemsN (l : List (ℕ × PyVal)) : List (ℕ × PyVal) :=
  stSort (fun a b => a.1 ≤ b.1) l

/-- Optional project detail of a row (`if program_name:` truthiness). -/
def detailOf (cm : Option PyVal) (r : Row) : Option String :=
  match cm with
  | Option.none => Option.none
  | Option.some c =>
    let v := rowGet r c
    if pyTruthy v then Option.some (trimStr (pyStr v)) else Option.none

/-- One explicit-year column of a row: skip when the parsed amount is
null or zero, else emit the scaled record. -/
def explicitStep (byYear : List (ℤ × PyVal)) (r : Row) (wn : ℤ)
    (wardName : String) (pn pj cat : Option String) (u f t : String)
    (recs : List CapRecord) (fy : ℤ) : List CapRecord :=
  match lookupZ byYear fy with
  | Option.none => recs
  | Option.some col =>
    match parse_number (rowGet r col) with
    | Option.none => recs
    | Option.some amtRaw =>
      if pyIsZero amtRaw then recs
      else
        let yoff : Option ℤ :=
          match (sortedKeysZ byYear).head? with
          | Option.none => Option.none
          | Option.some mn =>
            if mn ≠ 0 then Option.some (fy - mn + 1) else Option.none
        recs ++ [⟨fy, wn, wardName, pyMul1000 amtRaw, yoff,
          f, u, t, pn, pj, cat⟩]

/-- Explicit-year-mode records of one row, in ascending year order. -/
def explicitRecs (byYear : List (ℤ × PyVal)) (r : Row) (wn : ℤ)
    (wardName : String) (pn pj cat : Option String)
    (u f t : String) : List CapRecord :=
  (sortedKeysZ byYear).foldl (explicitStep byYear r wn wardName pn pj cat u f t) []

/-- One offset column of a row, emitting
`fiscal_year = year_start + (year_index - 1)`. -/
def offsetStep (r : Row) (wn : ℤ) (wardName : String)
    (pn pj cat : Option String) (b : ℤ) (u f t : String)
    (recs : List CapRecord) (ki : ℕ × PyVal) : List CapRecord :=
  match parse_number (rowGet r ki.2) with
  | Option.none => recs
  | Option.some amtRaw =>
    if pyIsZero amtRaw then recs
    else
      recs ++ [⟨b + ((ki.1 : ℤ) - 1), wn, wardName,
        pyMul1000 amtRaw, Option.some (ki.1 : ℤ),
        f, u, t, pn, pj, cat⟩]

/-- Offset-mode records of one row, in ascending offset order. -/
def offsetRecs (byOffset : List (ℕ × PyVal)) (r : Row) (wn : ℤ)
    (wardName : String) (pn pj cat : Option String) (b : ℤ)
    (u f t : String) : List CapRecord :=
  (sortedItemsN byOffset).foldl (offsetStep r wn wardName pn pj cat b u f t) []

/-- One data row of `extract_rows`' loop. -/
def processCapRow (cm : ColMap) (wardNumCol wardNameCol : PyVal)
    (byYear : List (ℤ × PyVal)) (byOffset : List (ℕ × PyVal))
    (year_start : Option ℤ) (u f t : String)
    (acc : List CapRecord) (r : Row) : Except PyErr (List CapRecord) :=
  match wardStep wardNumCol r with
  | .error e => .error e
  | .ok Option.none => .ok acc
  | .ok (Option.some wn) =>
    if rowGet r wardNameCol = PyVal.none ∨
        trimStr (pyStr (rowGet r wardNameCol)) = "" then .ok acc
    else if byYear ≠ [] then
      .ok (acc ++ explicitRecs byYear r wn (trimStr (pyStr (rowGet r wardNameCol)))
        (detailOf cm.program_name r) (detailOf cm.project_name r)
        (detailOf cm.category r) u f t)
    else
      match year_start with
      | Option.none =>
        .error (.runtimeError "Base year is required for Year 1..10 columns.")
      | Option.some b =>
        .ok (acc ++ offsetRecs byOffset r wn (trimStr (pyStr (rowGet r wardNameCol)))
          (detailOf cm.program_name r) (detailOf cm.project_name r)
          (detailOf cm.category r) b u f t)

/-- Model of `extract_rows`: resolve columns, check the ward columns,
check that some year columns exist, then walk the rows. -/
def extract_rows (df : DataFrame) (year_start : Option ℤ)
    (source_url source_file ingested_at : String) :
    Except PyErr (List CapRecord) :=
  match build_column_map df.columns with
  | .error e => .error e
  | .ok (cm, byYear, byOffset) =>
    match cm.ward_number, cm.ward_name with
    | Option.some wardNumCol, Option.some wardNameCol =>
      if byYear = [] ∧ byOffset = [] then
        .error (.runtimeError
          "Year columns not found (expected Year 1..10 or actual years like 2024).")
      else
        foldlME
          (processCapRow cm wardNumCol wardNameCol byYear byOffset year_start
            source_url source_file ingested_at) df.rows []
    | _, _ => .error (.runtimeError "Ward columns not found in the worksheet.")

/-- Model of `extract_year_range`: the first two `20\d{2}` tokens of the
text, in textual order, or nothing when fewer than two are found. -/
def extract_year_range (text : String) : Option ℤ × Option ℤ :=
  match findAll20xx text.data with
  | a :: b :: _ => (Option.some a, Option.some b)
  | _ => (Option.none, Option.none)

/-- Base-year resolution of `run_etl`: the `--base-year` argument if
given, else the first year token of `resource name ++ " " ++ filename`. -/
def inferBaseYear (base_year_arg : Option ℤ)
    (resource_name file_name : String) : Option ℤ :=
  match base_year_arg with
  | Option.some y => Option.some y
  | Option.none => (extract_year_range (resource_name ++ " " ++ file_name)).1

/-- The unconditional base-year check of `run_etl`, reached before the
worksheet is even read. -/
def runEtlBaseCheck (year_start : Option ℤ) : Except PyErr ℤ :=
  match year_start with
  | Option.none =>
    .error (.runtimeError
      "Base year could not be inferred. Provide --base-year explicitly.")
  | Option.some y => .ok y

end CapitalByWard

namespace FinancialReturn

/-- Model of `parse_number` in `financial_return_etl.py`; identical to
the capital version except that its null set also names `-` and the
empty string explicitly. -/
def parse_number (value : PyVal) : Option PyFloat :=
  match value with
  | .none => Option.none
  | .float .nan => Option.none
  | .float f => Option.some f
  | .int n => Option.some (.fin (n : ℚ))
  | .str s =>
    let text := trimL s.data
    if text.isEmpty || text.map Char.toLower = "na".data ||
        text.map Char.toLower = "n/a".data ||
        text.map Char.toLower = "-".data then Option.none
    else
      let isNeg := text.head? = Option.some '(' &&
        text.getLast? = Option.some ')'
      let text2 := if isNeg then (text.drop 1).dropLast else text
      let cleaned := text2.filter (fun c => !(c == '$' || c == ','))
      match pyFloatOfString ⟨cleaned⟩ with
      | Option.none => Option.none
      | Option.some f => Option.some (if isNeg then pyNeg f else f)

end FinancialReturn

namespace CouncilVoting

/-- Removal of a trailing redundant AM/PM marker
(`re.sub(r'\s+(AM|PM)$', '', ·, flags=IGNORECASE)`): the marker and all
contiguous whitespace before it. -/
def stripTrailAmPm (l : List Char) : List Char :=
  match l.reverse with
  | m :: a :: rest =>
    if (m == 'M' || m == 'm') &&
        (a == 'A' || a == 'a' || a == 'P' || a == 'p') &&
        (match rest with
         | [] => false
         | w :: _ => isWs w) then
      (rest.dropWhile isWs).reverse
    else l
  | _ => l

/-- Core of `pd.to_datetime` as `parse_date` relies on it: an ISO
`YYYY-MM-DD` prefix (optionally followed by whitespace or `T` and a
time).  The source wraps the library call in a bare `except` returning
null, so only the success shape matters; the library's many other
accepted formats are abstracted as failures. -/
def pdToDatetime (s : String) : Option (List Char) :=
  match s.data with
  | y1 :: y2 :: y3 :: y4 :: '-' :: m1 :: m2 :: '-' :: d1 :: d2 :: rest =>
    if ([y1, y2, y3, y4, m1, m2, d1, d2].all isDigitB) &&
        (match rest with
         | [] => true
         | c :: _ => isWs c || c == 'T') then
      let mo := 10 * (m1.toNat - 48) + (m2.toNat - 48)
      let da := 10 * (d1.toNat - 48) + (d2.toNat - 48)
      if 1 ≤ mo ∧ mo ≤ 12 ∧ 1 ≤ da ∧ da ≤ 31 then
        Option.some [y1, y2, y3, y4, '-', m1, m2, '-', d1, d2]
      else Option.none
    else Option.none
  | _ => Option.none

/-- Model of `parse_date`: null on falsy/NaN input, strip, remove a
trailing AM/PM after a 24-hour time, delegate to date parsing,
format back as `%Y-%m-%d` — total, never raises. -/
def parse_date (date_str : PyVal) : Option String :=
  if !(pyTruthy date_str) || pdIsNa date_str then Option.none
  else
    let cleaned := trimL (pyStr date_str).data
    let cleaned2 := stripTrailAmPm cleaned
    (pdToDatetime ⟨cleaned2⟩).map (fun l => (⟨l⟩ : String))

end CouncilVoting

namespace CapitalByWard

/-- A data row is skipped by the loop's ward checks. -/
def capRowSkipped (wnc wac : PyVal) (r : Row) : Prop :=
  wardStep wnc r = Except.ok Option.none ∨
  (∃ wn, wardStep wnc r = Except.ok (Option.some wn) ∧
    (rowGet r wac = PyVal.none ∨ trimStr (pyStr (rowGet r wac)) = ""))

/-- The single data row of the C4 scenario: a valid ward with Year 1..3
holding 10, 0 and -5. -/
def capRowC4 : Row :=
  [(PyVal.str "Ward Number", PyVal.int 1),
   (PyVal.str "Ward", PyVal.str "W1"),
   (PyVal.str "Year 1", PyVal.int 10),
   (PyVal.str "Year 2", PyVal.int 0),
   (PyVal.str "Year 3", PyVal.int (-5))]

/-- The C4 worksheet: offset columns Year 1..3 and one data row. -/
def capDfC4 : DataFrame :=
  ⟨[PyVal.str "Ward Number", PyVal.str "Ward",
    PyVal.str "Year 1", PyVal.str "Year 2", PyVal.str "Year 3"],
   [capRowC4]⟩

/-- First record the code emits for `capDfC4` with base year 2024. -/
def capRecC4a : CapRecord :=
  ⟨2024, 1, "W1", PyFloat.fin 10000, Option.some 1, "f", "u", "t",
    Option.none, Option.none, Option.none⟩

/-- Second record the code emits for `capDfC4` with base year 2024. -/
def capRecC4b : CapRecord :=
  ⟨2026, 1, "W1", PyFloat.fin (-5000), Option.some 3, "f", "u", "t",
    Option.none, Option.none, Option.none⟩

/-- The column map of the C5 worksheets: only the two ward columns. -/
def cmC5 : ColMap :=
  ⟨Option.some (PyVal.str "Ward Number"), Option.some (PyVal.str "Ward"),
   Option.none, Option.none, Option.none, Option.none, Option.none⟩

/-- An offset-mode worksheet (header `Year 1`) with no data rows. -/
def capDfC5 : DataFrame :=
  ⟨[PyVal.str "Ward Number", PyVal.str "Ward", PyVal.str "Year 1"], []⟩

/-- An explicit-mode worksheet (header `2024`) with no data rows. -/
def capDfC5x : DataFrame :=
  ⟨[PyVal.str "Ward Number", PyVal.str "Ward", PyVal.int 2024], []⟩

/-- An offset-mode worksheet with one valid data row. -/
def capDfC5n : DataFrame :=
  ⟨[PyVal.str "Ward Number", PyVal.str "Ward", PyVal.str "Year 1"],
   [capRowC4]⟩

end CapitalByWard

namespace FinancialReturn

/-- Outcome of the `try` body of `run_etl`'s resource loop for one
resource: records parsed and the resource processed, the resource
skipped by the `--fiscal-years` filter (`continue`), or an exception
caught by the `except` clause. The body itself downloads and reads
workbooks, so it is a parameter of the batch model. -/
inductive StepOutcome (α : Type) where
  | success (recs : List α)
  | skipped
  | failed (msg : String)

/-- The three accumulators of the loop: `all_records`,
`processed_resources` and `failed_resources`. -/
structure BatchAcc (ρ α : Type) where
  all_records : List α
  processed : List ρ
  failed : List (ρ × String)
deriving DecidableEq

/-- One iteration of the resource loop: a success extends
`all_records` and `processed_resources`, a `continue` changes nothing,
and a caught exception appends to `failed_resources` only. -/
def batchStep {ρ α : Type} (process : ρ → StepOutcome α)
    (acc : BatchAcc ρ α) (r : ρ) : BatchAcc ρ α :=
  match process r with
  | .success recs => ⟨acc.all_records ++ recs, acc.processed ++ [r], acc.failed⟩
  | .skipped => acc
  | .failed msg => ⟨acc.all_records, acc.processed, acc.failed ++ [(r, msg)]⟩

/-- The whole resource loop, starting from empty accumulators. -/
def runBatchLoop {ρ α : Type} (process : ρ → StepOutcome α)
    (resources : List ρ) : BatchAcc ρ α :=
  resources.foldl (batchStep process) ⟨[], [], []⟩

/-- The batch of `run_etl`: run the loop, then raise
`No records parsed from any resources.` exactly when `all_records`
stayed empty. -/
def runBatch {ρ α : Type} (process : ρ → StepOutcome α)
    (resources : List ρ) : Except PyErr (BatchAcc ρ α) :=
  match (runBatchLoop process resources).all_records with
  | [] => .error (.runtimeError "No records parsed from any resources.")
  | _ :: _ => .ok (runBatchLoop process resources)

/-- The records a resource contributes (none unless it succeeds). -/
def succRecs {ρ α : Type} (process : ρ → StepOutcome α) (r : ρ) :
    Option (List α) :=
  match process r with
  | .success recs => Option.some recs
  | _ => Option.none

/-- The processed-list entry of a resource (present iff it succeeds). -/
def procEntry {ρ α : Type} (process : ρ → StepOutcome α) (r : ρ) :
    Option ρ :=
  match process r with
  | .success _ => Option.some r
  | _ => Option.none

/-- The failed-list entry of a resource (present iff it fails). -/
def failMsg {ρ α : Type} (process : ρ → StepOutcome α) (r : ρ) :
    Option (ρ × String) :=
  match process r with
  | .failed msg => Option.some (r, msg)
  | _ => Option.none

/-- A concrete batch body: resource 0 raises, resource 1 parses one
record, resource 2 is filtered out. -/
def procC9 : ℕ → StepOutcome ℕ :=
  fun n => if n = 0 then .failed "boom"
    else if n = 1 then .success [7] else .skipped

end FinancialReturn

namespace PublishGcs

/-- A `{label, amount}` aggregate, as produced by
`aggregate_by_label_money_flow`. -/
structure Group where
  label : String
  amount : ℚ
deriving DecidableEq, Repr

/-- An emitted group with its attached `percentage`. -/
structure PGroup where
  label : String
  amount : ℚ
  percentage : ℚ
deriving DecidableEq, Repr

/-- `[item for item in records if item["amount"] > 0]`. -/
def positivesOf (records : List Group) : List Group :=
  records.filter (fun g => decide (0 < g.amount))

/-- `sorted(positive, key=lambda x: x["amount"], reverse=True)`:
stable sort, descending by amount. -/
def sortedDescOf (records : List Group) : List Group :=
  stSort (fun a b => decide (b.amount ≤ a.amount)) (positivesOf records)

/-- `total = sum(item["amount"] for item in positive)`. -/
def totalOf (records : List Group) : ℚ :=
  ((positivesOf records).map Group.amount).sum

/-- `top_groups = sorted_records[:group_limit]`. -/
def topGroupsOf (records : List Group) (k : ℕ) : List Group :=
  (sortedDescOf records).take k

/-- Python's `l[-k:]` slice: the whole list when `k = 0`, else the
last `k` elements. -/
def lastSlice {α : Type} (k : ℕ) (l : List α) : List α :=
  if k = 0 then l else l.drop (l.length - k)

/-- `bottom_groups`: the last `group_limit` entries of the sorted list,
minus any label already in the top set, re-sorted ascending (a stable
in-place `sort`). -/
def bottomGroupsOf (records : List Group) (k : ℕ) : List Group :=
  stSort (fun a b => decide (a.amount ≤ b.amount))
    ((lastSlice k (sortedDescOf records)).filter
      (fun g => decide (g.label ∉ (topGroupsOf records k).map Group.label)))

/-- `add_percentages`: attach
`amount / total * 100 if total > 0 else 0` to each group. -/
def addPercentages (total : ℚ) (groups : List Group) : List PGroup :=
  groups.map (fun g => ⟨g.label, g.amount,
    if 0 < total then g.amount / total * 100 else 0⟩)

/-- Model of `build_top_bottom_groups_money_flow`, returning
`(total, topGroups, bottomGroups)`. -/
def build_top_bottom_groups_money_flow (records : List Group)
    (group_limit : ℕ) : ℚ × List PGroup × List PGroup :=
  (totalOf records,
   addPercentages (totalOf records) (topGroupsOf records group_limit),
   addPercentages (totalOf records) (bottomGroupsOf records group_limit))

/-- The concrete records of the C3 scenario. -/
def recsC3 : List Group := [⟨"A", 50⟩, ⟨"B", 30⟩, ⟨"C", 20⟩]

end PublishGcs

end StdJourn


namespace StdJourn

theorem pyEqb_symm (a b : PyVal) : pyEqb a b = pyEqb b a := by
  unfold pyEqb
  cases pyKey a <;> cases pyKey b <;> simp [eq_comm]

theorem pyEqb_trans {a b c : PyVal} (h₁ : pyEqb a b = true)
    (h₂ : pyEqb b c = true) : pyEqb a c = true := by
  unfold pyEqb at *
  cases ha : pyKey a <;> cases hb : pyKey b <;> cases hc : pyKey c <;>
    simp_all

namespace CouncilVoting

/-! ### Association-list lemmas for the motions dict -/

theorem pyEqb_refl_of_key {v : PyVal} (h : pyKey v ≠ Option.none) :
    pyEqb v v = true := by
  unfold pyEqb
  cases hk : pyKey v with
  | none => exact absurd hk h
  | some k => simp

theorem pyKey_ne_none_of_not_isna {v : PyVal} (h : pdIsNa v = false) :
    pyKey v ≠ Option.none := by
  cases v with
  | none => simp [pdIsNa] at h
  | float f => cases f <;> simp_all [pdIsNa, pyKey]
  | int n => simp [pyKey]
  | str s => simp [pyKey]

/-- Pointwise: under key equality of `b` and `m`, any key compares
equally to both. -/
theorem pyEqb_congr {b m : PyVal} (h : pyEqb b m = true) (k : PyVal) :
    pyEqb k b = pyEqb k m := by
  unfold pyEqb at *
  cases pyKey k <;> cases hb : pyKey b <;> cases hm : pyKey m <;> simp_all

theorem findP_congr {b m : PyVal} (h : pyEqb b m = true) (st : AggState) :
    findP st m = findP st b := by
  induction st with
  | nil => rfl
  | cons p t ih =>
    obtain ⟨k, a⟩ := p
    simp only [findP, pyEqb_congr h k]
    split <;> simp [ih]

theorem findP_append_one (st : AggState) (k : PyVal) (a : MotionAcc)
    (m : PyVal) :
    findP (st ++ [(k, a)]) m =
      match findP st m with
      | Option.some x => Option.some x
      | Option.none => if pyEqb k m then Option.some a else Option.none := by
  induction st with
  | nil => simp [findP]
  | cons p t ih =>
    obtain ⟨k', a'⟩ := p
    simp only [List.cons_append, findP]
    split <;> simp [ih]

theorem findP_updateP_of_eq {b m : PyVal} (h : pyEqb b m = true)
    (st : AggState) (f : MotionAcc → MotionAcc) :
    findP (updateP st b f) m = (findP st m).map f := by
  induction st with
  | nil => rfl
  | cons p t ih =>
    obtain ⟨k, a⟩ := p
    by_cases hkb : pyEqb k b = true
    · have hkm : pyEqb k m = true := by rw [← pyEqb_congr h k]; exact hkb
      simp [updateP, findP, hkb, hkm]
    · have hkm : pyEqb k m = false := by
        rw [← pyEqb_congr h k]; exact Bool.not_eq_true _ ▸ (by simpa using hkb)
      simp [updateP, findP, hkb, hkm, ih]

theorem findP_updateP_of_ne {b m : PyVal} (h : pyEqb b m = false)
    (st : AggState) (f : MotionAcc → MotionAcc) :
    findP (updateP st b f) m = findP st m := by
  induction st with
  | nil => rfl
  | cons p t ih =>
    obtain ⟨k, a⟩ := p
    by_cases hkb : pyEqb k b = true
    · have hkm : pyEqb k m = false := by
        by_contra hc
        have hkm' : pyEqb k m = true := by simpa using hc
        have hbk : pyEqb b k = true := by rw [pyEqb_symm]; exact hkb
        have hbm := pyEqb_trans hbk hkm'
        simp [hbm] at h
      simp [updateP, findP, hkb, hkm]
    · have hkb' : pyEqb k b = false := by simpa using hkb
      by_cases hkm : pyEqb k m = true
      · simp [updateP, findP, hkb', hkm]
      · have hkm' : pyEqb k m = false := by simpa using hkm
        simp [updateP, findP, hkb', hkm', ih]

theorem findS_mem {α : Type} {l : List (String × α)} {c : String} {v : α}
    (h : findS l c = Option.some v) : (c, v) ∈ l := by
  induction l with
  | nil => simp [findS] at h
  | cons p t ih =>
    obtain ⟨k, a⟩ := p
    by_cases hk : k = c
    · subst hk; simp [findS] at h; simp [h]
    · simp [findS, hk] at h
      exact List.mem_cons_of_mem _ (ih h)

theorem findS_append_one {α : Type} (l : List (String × α)) (k : String)
    (a : α) (c : String) :
    findS (l ++ [(k, a)]) c =
      match findS l c with
      | Option.some x => Option.some x
      | Option.none => if k = c then Option.some a else Option.none := by
  induction l with
  | nil => simp [findS]
  | cons p t ih =>
    obtain ⟨k', a'⟩ := p
    simp only [List.cons_append, findS]
    split <;> simp [ih]

theorem findS_updateS_self {α : Type} (l : List (String × α)) (c : String)
    (f : α → α) : findS (updateS l c f) c = (findS l c).map f := by
  induction l with
  | nil => rfl
  | cons p t ih =>
    obtain ⟨k, a⟩ := p
    by_cases hk : k = c <;> simp [updateS, findS, hk, ih]

theorem findS_updateS_ne {α : Type} (l : List (String × α)) {c c' : String}
    (h : c' ≠ c) (f : α → α) : findS (updateS l c f) c' = findS l c' := by
  induction l with
  | nil => rfl
  | cons p t ih =>
    obtain ⟨k, a⟩ := p
    by_cases hk : k = c
    · subst hk
      have hne : ¬ k = c' := fun e => h e.symm
      simp [updateS, findS, hne]
    · by_cases hk' : k = c'
      · subst hk'
        simp [updateS, findS, hk]
      · simp [updateS, findS, hk, hk', ih]

/-! ### The adoption-vote fold characterization (claim C1 machinery) -/

theorem applyVote_finalVote_of_not_adopt {mtl : String}
    (h : hasSub "adopt item" mtl = false) (v : Vote) (c : CData) :
    (applyVote mtl v c).finalVote = c.finalVote := by
  unfold applyVote
  rw [h]
  simp only [Bool.false_eq_true, if_false]
  split
  · cases v <;> rfl
  · split
    · split <;> rfl
    · split
      · split <;> rfl
      · rfl

theorem applyVote_finalVote_of_adopt {mtl : String}
    (h : hasSub "adopt item" mtl = true) (v : Vote) (c : CData) :
    (applyVote mtl v c).finalVote = adoptStep c.finalVote v := by
  unfold applyVote
  rw [h]
  rfl

theorem findS_stepMotion_self (name : String) (v : Vote) (mtl : String)
    (acc : MotionAcc) :
    findS (stepMotion name v mtl acc).cdata name =
      Option.some (applyVote mtl v ((findS acc.cdata name).getD (initC name))) := by
  cases h : findS acc.cdata name with
  | some cd =>
    simp [stepMotion, h, findS_updateS_self]
  | none =>
    simp [stepMotion, h, findS_updateS_self, findS_append_one]

theorem findS_stepMotion_ne {name c : String} (h : c ≠ name) (v : Vote)
    (mtl : String) (acc : MotionAcc) :
    findS (stepMotion name v mtl acc).cdata c = findS acc.cdata c := by
  have hne : ¬ name = c := fun e => h e.symm
  by_cases hp : (findS acc.cdata name).isSome = true
  · simp only [stepMotion, hp, if_true]
    exact findS_updateS_ne _ h _
  · simp only [stepMotion, hp, if_false]
    rw [findS_updateS_ne _ h]
    simp only [Bool.false_eq_true, if_false]
    rw [findS_append_one]
    cases hF : findS acc.cdata c with
    | some x => simp
    | none => simp [hne]

theorem finalVoteOpt_insert (st : AggState) (r : PyVal) (m : PyVal)
    (c : String) :
    finalVoteOpt (insertMotion st r) m c = finalVoteOpt st m c := by
  unfold insertMotion
  by_cases hp : (findP st r).isSome = true
  · rw [if_pos hp]
  · rw [if_neg hp]
    unfold finalVoteOpt
    rw [findP_append_one]
    cases findP st m with
    | some acc => simp
    | none =>
      by_cases hrm : pyEqb r m = true
      · simp [hrm, findS]
      · simp [hrm]

theorem findP_insertMotion_present {st : AggState} {r : PyVal}
    (hrr : pyEqb r r = true) :
    ∃ acc, findP (insertMotion st r) r = Option.some acc := by
  unfold insertMotion
  by_cases hp : (findP st r).isSome = true
  · rw [if_pos hp]
    obtain ⟨acc, hacc⟩ := Option.isSome_iff_exists.mp hp
    exact ⟨acc, hacc⟩
  · rw [if_neg hp, findP_append_one]
    have : findP st r = Option.none := by
      cases hF : findP st r with
      | some a => rw [hF] at hp; simp at hp
      | none => rfl
    rw [this, hrr]
    exact ⟨_, rfl⟩

theorem findP_insertMotion_of_ne {st : AggState} {r m : PyVal}
    (h : pyEqb r m = false) :
    findP (insertMotion st r) m = findP st m := by
  unfold insertMotion
  by_cases hp : (findP st r).isSome = true
  · rw [if_pos hp]
  · rw [if_neg hp, findP_append_one]
    cases findP st m with
    | some acc => simp
    | none => simp [h]

/-- Value of `final_vote` read through the state, as a bind chain. -/
theorem finalVoteOpt_some {st : AggState} {m : PyVal} {acc : MotionAcc}
    (h : findP st m = Option.some acc) (c : String) :
    finalVoteOpt st m c =
      match findS acc.cdata c with
      | Option.none => Option.none
      | Option.some cd => cd.finalVote := by
  unfold finalVoteOpt
  rw [h]

theorem finalVoteOpt_none {st : AggState} {m : PyVal}
    (h : findP st m = Option.none) (c : String) :
    finalVoteOpt st m c = Option.none := by
  unfold finalVoteOpt
  rw [h]

/-- One-row step: processing a row evolves the `final_vote` of every
(motion, councillor) pair by `adoptStep` over the adoption votes the
row carries for that pair (none, or exactly one). -/
theorem finalVoteOpt_processRow (cfg : AggCfg) (st : AggState) (r : VoteRow)
    (m : PyVal) (c : String) :
    finalVoteOpt (processRow cfg st r) m c =
      (rowAdopt cfg r m c).foldl adoptStep (finalVoteOpt st m c) := by
  by_cases hna : pdIsNa r.motion = true
  · simp [processRow, hna, rowAdopt]
  · have hna' : pdIsNa r.motion = false := by simpa using hna
    have hrr : pyEqb r.motion r.motion = true :=
      pyEqb_refl_of_key (pyKey_ne_none_of_not_isna hna')
    cases hbn : buildName cfg r with
    | none =>
      have hpr : processRow cfg st r = insertMotion st r.motion := by
        simp [processRow, hna', hbn]
      rw [hpr, finalVoteOpt_insert]
      simp [rowAdopt, hbn]
    | some name =>
      have hpr : processRow cfg st r =
          updateP (insertMotion st r.motion) r.motion
            (stepMotion name (normVote r.vote) (mtlOf r)) := by
        simp [processRow, hna', hbn]
      rw [hpr]
      by_cases hm : pyEqb r.motion m = true
      · -- the row's motion is the observed one
        obtain ⟨acc1, hacc1⟩ := @findP_insertMotion_present st r.motion hrr
        have hfm1 : findP (insertMotion st r.motion) m = Option.some acc1 := by
          rw [findP_congr hm]; exact hacc1
        have hupd := findP_updateP_of_eq hm (insertMotion st r.motion)
          (stepMotion name (normVote r.vote) (mtlOf r))
        rw [hfm1] at hupd
        rw [finalVoteOpt_some (by simpa using hupd) c]
        have hPrev : finalVoteOpt st m c =
            match findS acc1.cdata c with
            | Option.none => Option.none
            | Option.some cd => cd.finalVote := by
          rw [← finalVoteOpt_insert st r.motion m c, finalVoteOpt_some hfm1 c]
        rw [hPrev]
        by_cases hc : c = name
        · subst hc
          rw [findS_stepMotion_self]
          show (applyVote (mtlOf r) (normVote r.vote)
            ((findS acc1.cdata c).getD (initC c))).finalVote = _
          by_cases hA : hasSub "adopt item" (mtlOf r) = true
          · rw [show rowAdopt cfg r m c = [normVote r.vote] from by
              simp [rowAdopt, hna', hm, hbn, hA]]
            rw [applyVote_finalVote_of_adopt hA, List.foldl_cons,
              List.foldl_nil]
            cases hF : findS acc1.cdata c <;> simp [initC]
          · have hA' : hasSub "adopt item" (mtlOf r) = false := by
              simpa using hA
            rw [show rowAdopt cfg r m c = [] from by
              simp [rowAdopt, hA']]
            rw [applyVote_finalVote_of_not_adopt hA', List.foldl_nil]
            cases hF : findS acc1.cdata c <;> simp [initC]
        · rw [findS_stepMotion_ne hc]
          rw [show rowAdopt cfg r m c = [] from by
            simp [rowAdopt, hbn]
            intro _ _ h
            exact absurd h.symm hc]
          rw [List.foldl_nil]
      · -- a different motion: nothing observable changes
        have hm' : pyEqb r.motion m = false := by simpa using hm
        have hun : finalVoteOpt
            (updateP (insertMotion st r.motion) r.motion
              (stepMotion name (normVote r.vote) (mtlOf r))) m c =
            finalVoteOpt st m c := by
          unfold finalVoteOpt
          rw [findP_updateP_of_ne hm', findP_insertMotion_of_ne hm']
        rw [hun]
        rw [show rowAdopt cfg r m c = [] from by simp [rowAdopt, hm']]
        rw [List.foldl_nil]

theorem findP_mem {st : AggState} {m : PyVal} {acc : MotionAcc}
    (h : findP st m = Option.some acc) : ∃ k, (k, acc) ∈ st := by
  induction st with
  | nil => simp [findP] at h
  | cons p t ih =>
    obtain ⟨k, a⟩ := p
    by_cases hk : pyEqb k m = true
    · simp [findP, hk] at h
      exact ⟨k, by simp [h]⟩
    · simp [findP, hk] at h
      obtain ⟨k', hk'⟩ := ih h
      exact ⟨k', List.mem_cons_of_mem _ hk'⟩

theorem findS_isSome_iff {α : Type} (l : List (String × α)) (n : String) :
    (findS l n).isSome = true ↔ n ∈ l.map Prod.fst := by
  induction l with
  | nil => simp [findS]
  | cons p t ih =>
    obtain ⟨k, a⟩ := p
    by_cases hk : k = n
    · subst hk; simp [findS]
    · have hne : ¬ n = k := fun e => hk e.symm
      simp [findS, hk, ih, hne]

theorem updateS_map_fst {α : Type} (l : List (String × α)) (c : String)
    (f : α → α) : (updateS l c f).map Prod.fst = l.map Prod.fst := by
  induction l with
  | nil => rfl
  | cons p t ih =>
    obtain ⟨k, a⟩ := p
    by_cases hk : k = c <;> simp [updateS, hk, ih]

theorem applyVote_name (mtl : String) (v : Vote) (c : CData) :
    (applyVote mtl v c).councillorName = c.councillorName := by
  unfold applyVote
  split
  · rfl
  · split
    · cases v <;> rfl
    · split
      · split <;> rfl
      · split
        · split <;> rfl
        · rfl

theorem updateS_names {l : List (String × CData)} {c : String}
    {f : CData → CData} (hf : ∀ v, (f v).councillorName = v.councillorName)
    (hn : ∀ q ∈ l, (q.2 : CData).councillorName = q.1) :
    ∀ q ∈ updateS l c f, (q.2 : CData).councillorName = q.1 := by
  induction l with
  | nil => intro q hq; simp [updateS] at hq
  | cons p t ih =>
    obtain ⟨k, a⟩ := p
    intro q hq
    by_cases hk : k = c
    · subst hk
      simp [updateS] at hq
      rcases hq with hq | hq
      · subst hq; simpa [hf] using hn (k, a) (by simp)
      · exact hn q (List.mem_cons_of_mem _ hq)
    · simp only [updateS, if_neg hk, List.mem_cons] at hq
      rcases hq with hq | hq
      · subst hq; exact hn (k, a) (by simp)
      · exact ih (fun q' hq' => hn q' (List.mem_cons_of_mem _ hq')) q hq

theorem stepMotion_accWF {acc : MotionAcc} (h : accWF acc) (name : String)
    (v : Vote) (mtl : String) : accWF (stepMotion name v mtl acc) := by
  obtain ⟨hkeys, hnames⟩ := h
  unfold stepMotion accWF
  by_cases hp : (findS acc.cdata name).isSome = true
  · rw [if_pos hp]
    constructor
    · simpa [updateS_map_fst] using hkeys
    · exact updateS_names (applyVote_name mtl v) hnames
  · rw [if_neg hp]
    constructor
    · simp [updateS_map_fst, hkeys]
    · refine updateS_names (applyVote_name mtl v) ?_
      intro q hq
      rcases List.mem_append.mp hq with hq | hq
      · exact hnames q hq
      · simp at hq; subst hq; rfl

theorem stepMotion_order {acc : MotionAcc} (h : accWF acc) (name : String)
    (v : Vote) (mtl : String) :
    (stepMotion name v mtl acc).order =
      if name ∈ acc.order then acc.order else acc.order ++ [name] := by
  obtain ⟨hkeys, _⟩ := h
  unfold stepMotion
  by_cases hp : (findS acc.cdata name).isSome = true
  · have : name ∈ acc.order := by
      rw [← hkeys]; exact (findS_isSome_iff _ _).mp hp
    rw [if_pos hp, if_pos this]
  · have : name ∉ acc.order := by
      rw [← hkeys]
      intro hc
      exact hp ((findS_isSome_iff _ _).mpr hc)
    rw [if_neg hp, if_neg this]

theorem insertMotion_stWF {st : AggState} (h : stWF st) (mo : PyVal) :
    stWF (insertMotion st mo) := by
  unfold insertMotion
  split
  · exact h
  · intro p hp
    rcases List.mem_append.mp hp with hp | hp
    · exact h p hp
    · simp at hp
      subst hp
      exact ⟨rfl, by intro q hq; simp at hq⟩

theorem updateP_stWF {st : AggState} (h : stWF st) (mo : PyVal)
    {f : MotionAcc → MotionAcc} (hf : ∀ a, accWF a → accWF (f a)) :
    stWF (updateP st mo f) := by
  induction st with
  | nil => intro p hp; simp [updateP] at hp
  | cons p t ih =>
    obtain ⟨k, a⟩ := p
    intro q hq
    by_cases hk : pyEqb k mo = true
    · simp only [updateP, if_pos hk, List.mem_cons] at hq
      rcases hq with hq | hq
      · subst hq; exact hf a (h (k, a) (by simp))
      · exact h q (List.mem_cons_of_mem _ hq)
    · simp only [updateP, if_neg hk, List.mem_cons] at hq
      rcases hq with hq | hq
      · subst hq; exact h (k, a) (by simp)
      · exact ih (fun q' hq' => h q' (List.mem_cons_of_mem _ hq')) q hq

theorem processRow_stWF {st : AggState} (h : stWF st) (cfg : AggCfg)
    (r : VoteRow) : stWF (processRow cfg st r) := by
  unfold processRow
  split
  · exact h
  · split
    · exact insertMotion_stWF h _
    · exact updateP_stWF (insertMotion_stWF h _) _
        (fun a ha => stepMotion_accWF ha _ _ _)

theorem aggregate_stWF (cfg : AggCfg) (rows : List VoteRow) :
    stWF (aggregate cfg rows) := by
  unfold aggregate
  generalize hst : ([] : AggState) = st
  have h0 : stWF st := by rw [← hst]; intro p hp; simp at hp
  clear hst
  induction rows generalizing st with
  | nil => exact h0
  | cons r rs ih => exact ih _ (processRow_stWF h0 cfg r)

theorem accWF_of_findP {st : AggState} (h : stWF st) {m : PyVal}
    {acc : MotionAcc} (hf : findP st m = Option.some acc) : accWF acc := by
  obtain ⟨k, hk⟩ := findP_mem hf
  exact h (k, acc) hk

theorem orderOf_insert (st : AggState) (mo m : PyVal) :
    orderOf (insertMotion st mo) m = orderOf st m := by
  unfold insertMotion
  by_cases hp : (findP st mo).isSome = true
  · rw [if_pos hp]
  · rw [if_neg hp]
    unfold orderOf
    rw [findP_append_one]
    cases findP st m with
    | some acc => simp
    | none =>
      by_cases hrm : pyEqb mo m = true
      · simp [hrm]
      · simp [hrm]

/-- One-row step of the order list of any motion. -/
theorem orderOf_processRow {st : AggState} (hwf : stWF st) (cfg : AggCfg)
    (r : VoteRow) (m : PyVal) :
    orderOf (processRow cfg st r) m = stepAppear cfg r m (orderOf st m) := by
  by_cases hna : pdIsNa r.motion = true
  · simp [processRow, hna, stepAppear]
  · have hna' : pdIsNa r.motion = false := by simpa using hna
    have hrr : pyEqb r.motion r.motion = true :=
      pyEqb_refl_of_key (pyKey_ne_none_of_not_isna hna')
    cases hbn : buildName cfg r with
    | none =>
      have hpr : processRow cfg st r = insertMotion st r.motion := by
        simp [processRow, hna', hbn]
      rw [hpr, orderOf_insert]
      simp [stepAppear, hbn]
    | some name =>
      have hpr : processRow cfg st r =
          updateP (insertMotion st r.motion) r.motion
            (stepMotion name (normVote r.vote) (mtlOf r)) := by
        simp [processRow, hna', hbn]
      rw [hpr]
      by_cases hm : pyEqb r.motion m = true
      · obtain ⟨acc1, hacc1⟩ := @findP_insertMotion_present st r.motion hrr
        have hwf1 : accWF acc1 :=
          accWF_of_findP (insertMotion_stWF hwf _) hacc1
        have hfm1 : findP (insertMotion st r.motion) m = Option.some acc1 := by
          rw [findP_congr hm]; exact hacc1
        have hupd := findP_updateP_of_eq hm (insertMotion st r.motion)
          (stepMotion name (normVote r.vote) (mtlOf r))
        rw [hfm1] at hupd
        have hordst : orderOf st m = acc1.order := by
          rw [← orderOf_insert st r.motion m]
          unfold orderOf
          rw [hfm1]
        unfold orderOf
        rw [hupd]
        simp only [Option.map_some']
        rw [stepMotion_order hwf1]
        have hmm : (match findP st m with
            | Option.none => ([] : List String)
            | Option.some acc => acc.order) = acc1.order := hordst
        rw [hmm]
        simp [stepAppear, hna', hm, hbn]
      · have hm' : pyEqb r.motion m = false := by simpa using hm
        unfold orderOf
        rw [findP_updateP_of_ne hm', findP_insertMotion_of_ne hm']
        simp [stepAppear, hm']

/-- The order list of a motion after the whole scan is the
first-appearance list, generalized over the initial state. -/
theorem orderOf_foldl (cfg : AggCfg) (rows : List VoteRow) (st : AggState)
    (hwf : stWF st) (m : PyVal) :
    orderOf (rows.foldl (processRow cfg) st) m =
      rows.foldl (fun acc r => stepAppear cfg r m acc) (orderOf st m) := by
  induction rows generalizing st with
  | nil => rfl
  | cons r rs ih =>
    rw [List.foldl_cons, List.foldl_cons, ih _ (processRow_stWF hwf cfg r),
      orderOf_processRow hwf]

theorem finalizeFold_names {cdata : List (String × CData)}
    (hn : ∀ q ∈ cdata, (q.2 : CData).councillorName = q.1)
    (order : List String) (s0 : List OutVote × ℕ × ℕ × ℕ) :
    (order.foldl (finalizeFold cdata) s0).1.map (fun v => v.councillorName) =
      s0.1.map (fun v => v.councillorName) ++ order.filter (emitP cdata) := by
  induction order generalizing s0 with
  | nil => simp
  | cons n t ih =>
    rw [List.foldl_cons]
    cases hF : findS cdata n with
    | none =>
      have hstep : finalizeFold cdata s0 n = s0 := by
        simp [finalizeFold, hF]
      rw [hstep, ih]
      simp [emitP, hF]
    | some cd =>
      cases hfv : cd.finalVote with
      | none =>
        have hstep : finalizeFold cdata s0 n = s0 := by
          simp [finalizeFold, hF, hfv]
        rw [hstep, ih]
        simp [emitP, hF, hfv]
      | some fv =>
        have hname : cd.councillorName = n := hn (n, cd) (findS_mem hF)
        have hstep : finalizeFold cdata s0 n =
            (s0.1 ++ [outOfC cd],
              s0.2.1 + (if fv = .yes then 1 else 0),
              s0.2.2.1 + (if fv = .no then 1 else 0),
              s0.2.2.2 + (if fv = .yes ∨ fv = .no then 0 else 1)) := by
          simp [finalizeFold, hF, hfv]
        rw [hstep, ih]
        simp [emitP, hF, hfv, outOfC, hname]

theorem finalizeFold_counts (cdata : List (String × CData))
    (order : List String) (s0 : List OutVote × ℕ × ℕ × ℕ)
    (h0 : countsInv s0) :
    countsInv (order.foldl (finalizeFold cdata) s0) := by
  induction order generalizing s0 with
  | nil => exact h0
  | cons n t ih =>
    rw [List.foldl_cons]
    refine ih _ ?_
    cases hF : findS cdata n with
    | none =>
      rw [show finalizeFold cdata s0 n = s0 from by simp [finalizeFold, hF]]
      exact h0
    | some cd =>
      cases hfv : cd.finalVote with
      | none =>
        rw [show finalizeFold cdata s0 n = s0 from by
          simp [finalizeFold, hF, hfv]]
        exact h0
      | some fv =>
        rw [show finalizeFold cdata s0 n =
            (s0.1 ++ [outOfC cd],
              s0.2.1 + (if fv = Vote.yes then 1 else 0),
              s0.2.2.1 + (if fv = Vote.no then 1 else 0),
              s0.2.2.2 + (if fv = Vote.yes ∨ fv = Vote.no then 0 else 1))
          from by simp [finalizeFold, hF, hfv]]
        obtain ⟨hall, hy, hn, ha⟩ := h0
        refine ⟨?_, ?_, ?_, ?_⟩
        · intro v hv
          rcases List.mem_append.mp hv with hv | hv
          · exact hall v hv
          · simp at hv
            subst hv
            simp [outOfC, hfv]
        · rw [List.countP_append, ← hy]
          cases fv <;> simp [outOfC, hfv]
        · rw [List.countP_append, ← hn]
          cases fv <;> simp [outOfC, hfv]
        · rw [List.countP_append, ← ha]
          cases fv <;> simp [outOfC, hfv]

theorem findOut_map (st : AggState) (m : PyVal) :
    findOut (st.map (fun p => (p.1, finalizeMotion p.2))) m =
      (findP st m).map finalizeMotion := by
  induction st with
  | nil => rfl
  | cons p t ih =>
    obtain ⟨k, a⟩ := p
    by_cases hk : pyEqb k m = true <;> simp [findOut, findP, hk, ih]

/-- The fold characterization over a whole stream, generalized over the
initial state. -/
theorem finalVoteOpt_foldl (cfg : AggCfg) (rows : List VoteRow)
    (st : AggState) (m : PyVal) (c : String) :
    finalVoteOpt (rows.foldl (processRow cfg) st) m c =
      (adoptVotesOf cfg rows m c).foldl adoptStep (finalVoteOpt st m c) := by
  induction rows generalizing st with
  | nil => simp [adoptVotesOf]
  | cons r rs ih =>
    have hsplit : adoptVotesOf cfg (r :: rs) m c =
        rowAdopt cfg r m c ++ adoptVotesOf cfg rs m c := by
      simp [adoptVotesOf]
    rw [List.foldl_cons, ih, hsplit, List.foldl_append,
      finalVoteOpt_processRow]

/-- C1: for every stream of vote rows and every (motion, councillor)
pair, the final vote is the fold of `adoptStep` over that pair's
adoption votes in stream order, and `adoptStep` realizes the priority
No > Yes > Absent: the first adoption vote sets the value, a later No
always overwrites, a later Yes overwrites only Absent (never No), a
later Absent never overwrites; in particular No-then-Yes ends as No and
Absent-then-Yes ends as Yes. -/
theorem claim_C1 :
    (∀ (cfg : AggCfg) (rows : List VoteRow) (m : PyVal) (c : String),
      finalVoteOpt (aggregate cfg rows) m c =
        (adoptVotesOf cfg rows m c).foldl adoptStep Option.none)
    ∧ (∀ v : Vote, adoptStep Option.none v = Option.some v)
    ∧ (∀ cur : Vote, adoptStep (Option.some cur) Vote.no = Option.some Vote.no)
    ∧ adoptStep (Option.some Vote.absent) Vote.yes = Option.some Vote.yes
    ∧ adoptStep (Option.some Vote.no) Vote.yes = Option.some Vote.no
    ∧ adoptStep (Option.some Vote.yes) Vote.yes = Option.some Vote.yes
    ∧ (∀ cur : Vote, adoptStep (Option.some cur) Vote.absent = Option.some cur)
    ∧ [Vote.no, Vote.yes].foldl adoptStep Option.none = Option.some Vote.no
    ∧ [Vote.absent, Vote.yes].foldl adoptStep Option.none =
        Option.some Vote.yes := by
  refine ⟨?_, ?_, ?_, ?_, ?_, ?_, ?_, ?_, ?_⟩
  · intro cfg rows m c
    have h := finalVoteOpt_foldl cfg rows [] m c
    simpa [aggregate, finalVoteOpt, findP] using h
  · intro v; rfl
  · intro cur; cases cur <;> rfl
  · rfl
  · rfl
  · rfl
  · intro cur; cases cur <;> rfl
  · rfl
  · rfl

/-- C2: every finalized decision record has only non-null final votes in
its list, its three counters tally exactly the emitted entries, and
`calculate_vote_outcome` yields unknown when yes+no = 0, passed when
yes > no, otherwise failed. -/
theorem claim_C2 (cfg : AggCfg) (rows : List VoteRow)
    (p : PyVal × MotionOut) (hp : p ∈ aggregate_vote_results cfg rows) :
    (∀ v ∈ p.2.votes, (v : OutVote).finalVote ≠ Option.none) ∧
    p.2.yesVotes =
      p.2.votes.countP (fun v => decide (v.finalVote = Option.some Vote.yes)) ∧
    p.2.noVotes =
      p.2.votes.countP (fun v => decide (v.finalVote = Option.some Vote.no)) ∧
    p.2.absentVotes =
      p.2.votes.countP
        (fun v => decide (v.finalVote = Option.some Vote.absent)) ∧
    calculate_vote_outcome p.2.yesVotes p.2.noVotes p.2.absentVotes =
      (if p.2.yesVotes + p.2.noVotes = 0 then "unknown"
       else if p.2.yesVotes > p.2.noVotes then "passed" else "failed") := by
  obtain ⟨q, hq, hpe⟩ := List.mem_map.mp hp
  subst hpe
  have h := finalizeFold_counts q.2.cdata q.2.order ([], 0, 0, 0)
    ⟨by intro v hv; simp at hv, by simp, by simp, by simp⟩
  obtain ⟨hall, hy, hn, ha⟩ := h
  refine ⟨?_, hy, hn, ha, rfl⟩
  intro v hv
  have := hall v hv
  simp only [Option.isSome_iff_ne_none] at this
  exact this

/-- C2 witness at a one-row stream: one adoption Yes from one
councillor yields one emitted vote counted as the single Yes. -/
theorem claim_C2_witness :
    (1 : ℕ) =
      ([{ councillorName := "Alice", finalVote := Option.some Vote.yes,
          triedToAmend := false, amendYes := 0, amendNo := 0,
          triedToDefer := false, triedToRefer := false }] :
        List OutVote).countP
        (fun v => decide (v.finalVote = Option.some Vote.yes)) :=
  (claim_C2 { useCouncillor := true, useFirstLast := false }
    [{ motion := PyVal.str "1", vote := PyVal.str "Yes",
       motionType := PyVal.str "Adopt Item",
       councillorCell := PyVal.str "Alice",
       firstCell := PyVal.none, lastCell := PyVal.none }]
    (PyVal.str "1",
      { motionId := "1",
        votes := [{ councillorName := "Alice",
                    finalVote := Option.some Vote.yes,
                    triedToAmend := false, amendYes := 0, amendNo := 0,
                    triedToDefer := false, triedToRefer := false }],
        yesVotes := 1, noVotes := 0, absentVotes := 0 })
    (by decide)).2.1

/-- C10: the votes list of each finalized decision record is the
first-appearance order of that motion's councillors (rows of any
subtype), restricted to those with a non-null final vote — no sorting
by name, vote value or count. -/
theorem claim_C10 (cfg : AggCfg) (rows : List VoteRow) (m : PyVal) :
    ((findOut (aggregate_vote_results cfg rows) m).map
      (fun o => o.votes.map (fun v => v.councillorName))).getD [] =
      (firstAppear cfg rows m).filter
        (fun c => (finalVoteOpt (aggregate cfg rows) m c).isSome) := by
  have hwf := aggregate_stWF cfg rows
  have hord : orderOf (aggregate cfg rows) m = firstAppear cfg rows m := by
    have h := orderOf_foldl cfg rows [] (by intro p hp; simp at hp) m
    simpa [aggregate, firstAppear, orderOf, findP] using h
  rw [aggregate_vote_results, findOut_map]
  cases hfp : findP (aggregate cfg rows) m with
  | none =>
    have : firstAppear cfg rows m = [] := by
      rw [← hord]
      unfold orderOf
      rw [hfp]
    rw [this]
    simp
  | some acc =>
    have hacc : accWF acc := accWF_of_findP hwf hfp
    have hfa : firstAppear cfg rows m = acc.order := by
      rw [← hord]
      unfold orderOf
      rw [hfp]
    rw [hfa]
    simp only [Option.map_some', Option.getD_some]
    have hnames := finalizeFold_names hacc.2 acc.order ([], 0, 0, 0)
    unfold finalizeMotion
    rw [hnames]
    simp only [List.map_nil, List.nil_append]
    refine List.filter_congr ?_
    intro c _
    unfold emitP
    rw [finalVoteOpt_some hfp c]
    cases hF : findS acc.cdata c with
    | none => simp
    | some cd => simp

end CouncilVoting

/-! ## Decimal-representation lemmas -/

theorem isDigitB_bounds {c : Char} (h : isDigitB c = true) :
    48 ≤ c.toNat ∧ c.toNat ≤ 57 := by
  simpa [isDigitB] using h

theorem digitChar10_isDigitB {d : ℕ} (h : d < 10) :
    isDigitB (digitChar10 d) = true := by
  interval_cases d <;> decide

theorem digitChar10_toNat {d : ℕ} (h : d < 10) :
    (digitChar10 d).toNat = 48 + d := by
  interval_cases d <;> decide

theorem natReprAux_digits (fuel : ℕ) :
    ∀ n, n < fuel → ∀ c ∈ natReprAux fuel n, isDigitB c = true := by
  induction fuel with
  | zero => intro n hn; omega
  | succ fuel' ih =>
    intro n hn c hc
    rw [natReprAux] at hc
    by_cases h : n < 10
    · rw [if_pos h] at hc
      simp at hc
      subst hc
      exact digitChar10_isDigitB h
    · rw [if_neg h] at hc
      rcases List.mem_append.mp hc with hc | hc
      · exact ih (n / 10) (by omega) c hc
      · simp at hc
        subst hc
        exact digitChar10_isDigitB (Nat.mod_lt _ (by omega))

theorem natRepr_digits (n : ℕ) : ∀ c ∈ natRepr n, isDigitB c = true :=
  natReprAux_digits (n + 1) n (by omega)

theorem digitsVal_append_one (l : List Char) (c : Char) :
    digitsVal (l ++ [c]) = 10 * digitsVal l + (c.toNat - 48) := by
  unfold digitsVal
  rw [List.foldl_append]
  rfl

theorem digitsVal_natReprAux (fuel : ℕ) :
    ∀ n, n < fuel → digitsVal (natReprAux fuel n) = n := by
  induction fuel with
  | zero => intro n hn; omega
  | succ fuel' ih =>
    intro n hn
    rw [natReprAux]
    by_cases h : n < 10
    · rw [if_pos h]
      show digitsVal [digitChar10 n] = n
      unfold digitsVal
      simp [digitChar10_toNat h]
    · rw [if_neg h, digitsVal_append_one, ih (n / 10) (by omega),
        digitChar10_toNat (Nat.mod_lt _ (by omega))]
      omega

theorem digitsVal_natRepr (n : ℕ) : digitsVal (natRepr n) = n :=
  digitsVal_natReprAux (n + 1) n (by omega)

theorem not_ws_of_digitB {c : Char} (h : isDigitB c = true) :
    isWs c = false := by
  obtain ⟨h1, h2⟩ := isDigitB_bounds h
  by_contra hc
  have hws : isWs c = true := by simpa using hc
  unfold isWs at hws
  simp only [Bool.or_eq_true, beq_iff_eq] at hws
  rcases hws with ((((h' | h') | h') | h') | h') | h' <;>
    (subst h'; revert h1; decide)

theorem intRepr_no_ws (n : ℤ) : ∀ c ∈ intRepr n, isWs c = false := by
  intro c hc
  unfold intRepr at hc
  split at hc
  · rcases List.mem_cons.mp hc with hc | hc
    · subst hc
      decide
    · exact not_ws_of_digitB (natRepr_digits _ c hc)
  · exact not_ws_of_digitB (natRepr_digits _ c hc)

theorem dropWhile_ws_eq_self {l : List Char}
    (h : ∀ c ∈ l, isWs c = false) : l.dropWhile isWs = l := by
  cases l with
  | nil => rfl
  | cons a t => simp [List.dropWhile_cons, h a (by simp)]

theorem trimL_eq_self {l : List Char} (h : ∀ c ∈ l, isWs c = false) :
    trimL l = l := by
  unfold trimL
  rw [dropWhile_ws_eq_self h,
    dropWhile_ws_eq_self (fun c hc => h c (List.mem_reverse.mp hc)),
    List.reverse_reverse]

theorem is20xx_shape {l : List Char} (h : is20xxL l = true) :
    ∃ c d, l = ['2', '0', c, d] ∧ isDigitB c = true ∧ isDigitB d = true := by
  unfold is20xxL at h
  split at h
  · rename_i a b c d
    simp only [Bool.and_eq_true, beq_iff_eq] at h
    obtain ⟨⟨⟨ha, hb⟩, hc⟩, hd⟩ := h
    subst ha
    subst hb
    exact ⟨c, d, rfl, hc, hd⟩
  · exact absurd h (by decide)

theorem val20xx_range {l : List Char} (h : is20xxL l = true) :
    2000 ≤ val20xxL l ∧ val20xxL l ≤ 2099 := by
  obtain ⟨c, d, rfl, hc, hd⟩ := is20xx_shape h
  obtain ⟨hc1, hc2⟩ := isDigitB_bounds hc
  obtain ⟨hd1, hd2⟩ := isDigitB_bounds hd
  have hv : val20xxL ['2', '0', c, d] =
      2000 + 10 * ((c.toNat : ℤ) - 48) + ((d.toNat : ℤ) - 48) := rfl
  rw [hv]
  omega

theorem digitsVal_20xx (c d : Char) (hc : isDigitB c = true)
    (hd : isDigitB d = true) :
    (digitsVal ['2', '0', c, d] : ℤ) = val20xxL ['2', '0', c, d] := by
  obtain ⟨hc1, hc2⟩ := isDigitB_bounds hc
  obtain ⟨hd1, hd2⟩ := isDigitB_bounds hd
  unfold digitsVal val20xxL
  simp only [List.foldl_cons, List.foldl_nil]
  have h2 : ('2' : Char).toNat = 50 := by decide
  have h0 : ('0' : Char).toNat = 48 := by decide
  rw [h2, h0]
  omega

namespace CapitalByWard

theorem year20xx_intRepr {n : ℤ} (h : ¬(2000 ≤ n ∧ n ≤ 2099)) :
    year20xxOfText (intRepr n) = Option.none := by
  unfold year20xxOfText
  rw [trimL_eq_self (intRepr_no_ws n)]
  cases h20 : is20xxL (intRepr n) with
  | false => simp [h20]
  | true =>
    exfalso
    obtain ⟨c, d, heq, hc, hd⟩ := is20xx_shape h20
    have hrange := val20xx_range h20
    rw [heq] at hrange
    by_cases hneg : n < 0
    · rw [intRepr, if_pos hneg] at heq
      have h2 := congrArg List.head? heq
      simp only [List.head?] at h2
      exact absurd (Option.some.inj h2) (by decide)
    · rw [intRepr, if_neg hneg] at heq
      have hval := digitsVal_natRepr n.toNat
      rw [heq] at hval
      have hz := digitsVal_20xx c d hc hd
      omega

theorem year20xx_of_dot {l : List Char} (hdot : '.' ∈ l)
    (hnws : ∀ c ∈ l, isWs c = false) :
    year20xxOfText l = Option.none := by
  unfold year20xxOfText
  rw [trimL_eq_self hnws]
  cases h20 : is20xxL l with
  | false => simp [h20]
  | true =>
    exfalso
    obtain ⟨c, d, heq, hc, hd⟩ := is20xx_shape h20
    subst heq
    simp only [List.mem_cons, List.not_mem_nil, or_false] at hdot
    rcases hdot with h' | h' | h' | h'
    · exact absurd h' (by decide)
    · exact absurd h' (by decide)
    · rw [← h'] at hc
      exact absurd hc (by decide)
    · rw [← h'] at hd
      exact absurd hd (by decide)

theorem data_mk (l : List Char) : (⟨l⟩ : String).data = l := rfl

theorem floatRepr_has_dot (q : ℚ) : '.' ∈ (floatRepr q).data := by
  unfold floatRepr
  by_cases h : q.den = 1
  · rw [if_pos h, data_mk]
    simp
  · rw [if_neg h, data_mk]
    simp

theorem floatRepr_no_ws (q : ℚ) : ∀ c ∈ (floatRepr q).data, isWs c = false := by
  intro c hc
  unfold floatRepr at hc
  by_cases h : q.den = 1
  · rw [if_pos h, data_mk] at hc
    rcases List.mem_append.mp hc with hc | hc
    · exact intRepr_no_ws _ c hc
    · simp only [List.mem_cons, List.not_mem_nil, or_false] at hc
      rcases hc with hc | hc <;> (subst hc; decide)
  · rw [if_neg h, data_mk] at hc
    rcases List.mem_append.mp hc with hc | hc
    · rcases List.mem_append.mp hc with hc | hc
      · exact intRepr_no_ws _ c hc
      · simp only [List.mem_cons, List.not_mem_nil, or_false] at hc
        subst hc
        decide
    · exact not_ws_of_digitB (natRepr_digits _ c hc)

end CapitalByWard

/-- The `mkRat` form of the ×1000 scaling equals rational
multiplication. -/
theorem pyMul1000_eq (q : ℚ) :
    pyMul1000 (PyFloat.fin q) = PyFloat.fin (q * 1000) := by
  show PyFloat.fin (mkRat (q.num * 1000) q.den) = _
  congr 1
  rw [Rat.mkRat_eq_div]
  calc ((q.num * 1000 : ℤ) : ℚ) / (q.den : ℚ)
      = ((q.num : ℚ) / q.den) * 1000 := by push_cast; ring
    _ = q * 1000 := by rw [Rat.num_div_den]

/-- Scaling by 1000 preserves non-zeroness. -/
theorem pyIsZero_pyMul1000 {f : PyFloat} (h : pyIsZero f = false) :
    pyIsZero (pyMul1000 f) = false := by
  cases f with
  | fin q =>
    rw [pyMul1000_eq]
    simp only [pyIsZero, decide_eq_false_iff_not] at h ⊢
    intro hc
    rcases mul_eq_zero.mp hc with hc | hc
    · exact h hc
    · norm_num at hc
  | nan => rfl
  | inf => rfl
  | ninf => rfl

/-- Fold-append invariant: a fold whose step only keeps or appends
`P`-elements preserves `P` over the whole result. -/
theorem foldl_mem_inv {α β : Type} (P : β → Prop)
    (step : List β → α → List β)
    (hstep : ∀ recs a rec, rec ∈ step recs a → rec ∈ recs ∨ P rec) :
    ∀ (l : List α) (acc : List β), (∀ rec ∈ acc, P rec) →
      ∀ rec ∈ l.foldl step acc, P rec := by
  intro l
  induction l with
  | nil => exact fun acc hacc => hacc
  | cons a t ih =>
    intro acc hacc rec hrec
    refine ih (step acc a) ?_ rec hrec
    intro rec' h'
    rcases hstep acc a rec' h' with h' | h'
    · exact hacc rec' h'
    · exact h'

namespace CapitalByWard

theorem explicitStep_mem {byYear r wn wname pn pj cat u f t recs fy rec}
    (h : rec ∈ explicitStep byYear r wn wname pn pj cat u f t recs fy) :
    rec ∈ recs ∨ pyIsZero rec.amount = false := by
  unfold explicitStep at h
  split at h
  · exact Or.inl h
  · split at h
    · exact Or.inl h
    · split at h
      · exact Or.inl h
      · rename_i hz
        rcases List.mem_append.mp h with h | h
        · exact Or.inl h
        · simp at h
          subst h
          exact Or.inr (pyIsZero_pyMul1000 (by simpa using hz))

theorem explicitRecs_mem {byYear r wn wname pn pj cat u f t rec}
    (h : rec ∈ explicitRecs byYear r wn wname pn pj cat u f t) :
    pyIsZero rec.amount = false := by
  refine foldl_mem_inv (fun rec => pyIsZero rec.amount = false)
    (explicitStep byYear r wn wname pn pj cat u f t) ?_
    (sortedKeysZ byYear) [] (by intro x hx; simp at hx) rec h
  intro recs a rec' h'
  exact explicitStep_mem h'

theorem offsetStep_mem {r : Row} {wn wname pn pj cat b u f t recs ki rec}
    (h : rec ∈ offsetStep r wn wname pn pj cat b u f t recs ki) :
    rec ∈ recs ∨ (pyIsZero rec.amount = false ∧
      rec.year_offset = Option.some ((ki.1 : ℕ) : ℤ) ∧
      rec.fiscal_year = b + (((ki.1 : ℕ) : ℤ) - 1)) := by
  unfold offsetStep at h
  split at h
  · exact Or.inl h
  · split at h
    · exact Or.inl h
    · rename_i hz
      rcases List.mem_append.mp h with h | h
      · exact Or.inl h
      · simp at h
        subst h
        exact Or.inr ⟨pyIsZero_pyMul1000 (by simpa using hz), rfl, rfl⟩

theorem offsetRecs_mem {byOffset r wn wname pn pj cat b u f t rec}
    (h : rec ∈ offsetRecs byOffset r wn wname pn pj cat b u f t) :
    pyIsZero rec.amount = false ∧ ∃ k : ℤ,
      rec.year_offset = Option.some k ∧ rec.fiscal_year = b + (k - 1) := by
  refine foldl_mem_inv
    (fun rec => pyIsZero rec.amount = false ∧ ∃ k : ℤ,
      rec.year_offset = Option.some k ∧ rec.fiscal_year = b + (k - 1))
    (offsetStep r wn wname pn pj cat b u f t) ?_
    (sortedItemsN byOffset) [] (by intro x hx; simp at hx) rec h
  intro recs a rec' h'
  rcases offsetStep_mem h' with h' | ⟨h1, h2, h3⟩
  · exact Or.inl h'
  · exact Or.inr ⟨h1, ((a.1 : ℕ) : ℤ), h2, h3⟩

/-- Every record a successful row step adds comes from `explicitRecs`
or (when a base year is set) from `offsetRecs`. -/
theorem processCapRow_mem {cm wnc wac byYear byOffset ys u f t acc r acc'}
    (h : processCapRow cm wnc wac byYear byOffset ys u f t acc r =
      Except.ok acc') :
    ∀ rec ∈ acc', rec ∈ acc ∨
      (∃ wn wname pn pj cat,
        rec ∈ explicitRecs byYear r wn wname pn pj cat u f t) ∨
      (∃ wn wname pn pj cat b, ys = Option.some b ∧
        rec ∈ offsetRecs byOffset r wn wname pn pj cat b u f t) := by
  unfold processCapRow at h
  split at h
  · exact absurd h (by simp)
  · intro rec hrec
    exact Or.inl ((Except.ok.inj h) ▸ hrec)
  · rename_i wn hws
    by_cases hskip : rowGet r wac = PyVal.none ∨
        trimStr (pyStr (rowGet r wac)) = ""
    · rw [if_pos hskip] at h
      intro rec hrec
      exact Or.inl ((Except.ok.inj h) ▸ hrec)
    · rw [if_neg hskip] at h
      by_cases hby : byYear ≠ []
      · rw [if_pos hby] at h
        intro rec hrec
        rw [← Except.ok.inj h] at hrec
        rcases List.mem_append.mp hrec with hrec | hrec
        · exact Or.inl hrec
        · exact Or.inr (Or.inl ⟨_, _, _, _, _, hrec⟩)
      · rw [if_neg hby] at h
        cases hys : ys with
        | none => rw [hys] at h; exact absurd h (by simp)
        | some b =>
          rw [hys] at h
          intro rec hrec
          rw [← Except.ok.inj h] at hrec
          rcases List.mem_append.mp hrec with hrec | hrec
          · exact Or.inl hrec
          · exact Or.inr (Or.inr ⟨_, _, _, _, _, b, rfl, hrec⟩)

/-- Invariant lemma for `foldlME` on record lists. -/
theorem foldlME_ok_mem {α : Type} {P : CapRecord → Prop}
    {step : List CapRecord → α → Except PyErr (List CapRecord)}
    (hstep : ∀ acc a acc', step acc a = Except.ok acc' →
      ∀ rec ∈ acc', rec ∈ acc ∨ P rec) :
    ∀ (l : List α) (acc acc' : List CapRecord),
      foldlME step l acc = Except.ok acc' →
      (∀ rec ∈ acc, P rec) → ∀ rec ∈ acc', P rec := by
  intro l
  induction l with
  | nil =>
    intro acc acc' h hacc
    rw [show acc' = acc from (Except.ok.inj h).symm]
    exact hacc
  | cons a t ih =>
    intro acc acc' h hacc
    unfold foldlME at h
    split at h
    · exact absurd h (by simp)
    · rename_i acc1 hs
      refine ih acc1 acc' h ?_
      intro rec hrec
      rcases hstep acc a acc1 hs rec hrec with h' | h'
      · exact hacc rec h'
      · exact h'

/-- Every record extraction emits has a non-zero amount: (row, year)
pairs whose parsed amount is null or exactly zero are skipped. -/
theorem extract_rows_nonzero {df ys u f t recs}
    (h : extract_rows df ys u f t = Except.ok recs) :
    ∀ rec ∈ recs, pyIsZero rec.amount = false := by
  unfold extract_rows at h
  split at h
  · exact absurd h (by simp)
  · split at h
    · split at h
      · exact absurd h (by simp)
      · refine foldlME_ok_mem ?_ df.rows [] recs h (by intro x hx; simp at hx)
        intro acc a acc' hs rec hrec
        rcases processCapRow_mem hs rec hrec with h' | h' | h'
        · exact Or.inl h'
        · obtain ⟨wn, wname, pn, pj, cat, hm⟩ := h'
          exact Or.inr (explicitRecs_mem hm)
        · obtain ⟨wn, wname, pn, pj, cat, b, _, hm⟩ := h'
          exact Or.inr (offsetRecs_mem hm).1
    · exact absurd h (by simp)

/-- In offset mode every emitted record's fiscal year is
`base + (year_index - 1)` for its own `year_offset`. -/
theorem extract_rows_offset_map {df u f t b recs cm byOffset}
    (hb : build_column_map df.columns = Except.ok (cm, [], byOffset))
    (h : extract_rows df (Option.some b) u f t = Except.ok recs) :
    ∀ rec ∈ recs, ∃ k : ℤ,
      rec.year_offset = Option.some k ∧ rec.fiscal_year = b + (k - 1) := by
  unfold extract_rows at h
  split at h
  · exact absurd h (by simp)
  · rename_i cm' byYear' byOffset' heq
    rw [hb] at heq
    have h3 := Except.ok.inj heq
    obtain ⟨hcm, hby, hbo⟩ : cm = cm' ∧ [] = byYear' ∧ byOffset = byOffset' := by
      simpa [Prod.ext_iff] using h3
    subst hcm
    rw [← hby] at h
    rw [← hbo] at h
    split at h
    · rename_i wnc wac
      split at h
      · exact absurd h (by simp)
      · refine foldlME_ok_mem ?_ df.rows [] recs h (by intro x hx; simp at hx)
        intro acc a acc' hs rec' hrec'
        rcases processCapRow_mem hs rec' hrec' with h' | h' | h'
        · exact Or.inl h'
        · obtain ⟨wn, wname, pn, pj, cat, hm⟩ := h'
          rw [show explicitRecs [] a wn wname pn pj cat u f t = [] from rfl]
            at hm
          simp at hm
        · obtain ⟨wn, wname, pn, pj, cat, b', hb', hm⟩ := h'
          rw [show b' = b from (Option.some.inj hb').symm] at hm
          exact Or.inr (offsetRecs_mem hm).2
    · exact absurd h (by simp)

/-- When the sheet has explicit year columns, `extract_rows` never
reads `year_start`: one row of the loop is invariant in it. -/
theorem processCapRow_ys {cm : ColMap} {wnc wac : PyVal}
    {byYear : List (ℤ × PyVal)} {byOffset : List (ℕ × PyVal)}
    {u f t : String} (hby : byYear ≠ []) (ys ys' : Option ℤ)
    (acc : List CapRecord) (r : Row) :
    processCapRow cm wnc wac byYear byOffset ys u f t acc r =
      processCapRow cm wnc wac byYear byOffset ys' u f t acc r := by
  unfold processCapRow
  split
  · rfl
  · rfl
  · split
    · rfl
    · rfl

theorem extract_rows_explicit_ys {df : DataFrame} {u f t : String}
    {cm : ColMap} {byYear : List (ℤ × PyVal)} {byOffset : List (ℕ × PyVal)}
    (hb : build_column_map df.columns = Except.ok (cm, byYear, byOffset))
    (hby : byYear ≠ []) (ys ys' : Option ℤ) :
    extract_rows df ys u f t = extract_rows df ys' u f t := by
  unfold extract_rows
  split
  · rfl
  · rename_i cm' byYear' byOffset' heq
    rw [hb] at heq
    obtain ⟨hcm, hy, ho⟩ : cm = cm' ∧ byYear = byYear' ∧ byOffset = byOffset' := by
      simpa [Prod.ext_iff] using Except.ok.inj heq
    subst hcm
    subst hy
    subst ho
    split
    · rename_i wnc wac _ _
      have hcond : ¬(byYear = [] ∧ byOffset = []) := fun hc => hby hc.1
      rw [if_neg hcond, if_neg hcond]
      rw [show processCapRow cm wnc wac byYear byOffset ys u f t =
          processCapRow cm wnc wac byYear byOffset ys' u f t from
        funext fun acc => funext fun r => processCapRow_ys hby ys ys' acc r]
    · rfl

theorem processCapRow_skipped {cm wnc wac byYear byOffset ys u f t acc r}
    (h : capRowSkipped wnc wac r) :
    processCapRow cm wnc wac byYear byOffset ys u f t acc r =
      Except.ok acc := by
  unfold processCapRow
  split
  · rename_i e heq
    rcases h with h | ⟨wn, h, _⟩ <;> (rw [h] at heq; exact absurd heq (by simp))
  · rfl
  · rename_i wn heq
    rcases h with h | ⟨wn', h, hskip⟩
    · rw [h] at heq
      exact absurd heq (by simp)
    · rw [if_pos hskip]

theorem foldlME_all_skip {cm wnc wac byYear byOffset ys u f t}
    (rows : List Row) (h : ∀ r ∈ rows, capRowSkipped wnc wac r)
    (acc : List CapRecord) :
    foldlME (processCapRow cm wnc wac byYear byOffset ys u f t) rows acc =
      Except.ok acc := by
  induction rows generalizing acc with
  | nil => rfl
  | cons a tl ih =>
    unfold foldlME
    rw [processCapRow_skipped (h a (by simp))]
    show foldlME _ tl acc = _
    exact ih (fun r hr => h r (List.mem_cons_of_mem _ hr)) acc

theorem foldlME_nonskip_err {cm wnc wac byOffset u f t}
    (rows : List Row) (h : ∃ r ∈ rows, ¬ capRowSkipped wnc wac r)
    (acc : List CapRecord) :
    ∃ e, foldlME (processCapRow cm wnc wac [] byOffset Option.none u f t)
      rows acc = Except.error e := by
  induction rows generalizing acc with
  | nil =>
    obtain ⟨r, hr, _⟩ := h
    simp at hr
  | cons a tl ih =>
    by_cases hskip : capRowSkipped wnc wac a
    · unfold foldlME
      rw [processCapRow_skipped hskip]
      show ∃ e, foldlME _ tl acc = _
      refine ih ?_ acc
      obtain ⟨r, hr, hn⟩ := h
      rcases List.mem_cons.mp hr with hr | hr
      · exact absurd hskip (hr ▸ hn)
      · exact ⟨r, hr, hn⟩
    · have hstep : ∃ e,
          processCapRow cm wnc wac [] byOffset Option.none u f t acc a =
            Except.error e := by
        unfold processCapRow
        split
        · exact ⟨_, rfl⟩
        · rename_i heq
          exact absurd (Or.inl heq) hskip
        · rename_i wn heq
          rw [if_neg (fun hsk2 => hskip (Or.inr ⟨wn, heq, hsk2⟩))]
          rw [if_neg (by simp : ¬(([] : List (ℤ × PyVal)) ≠ []))]
          exact ⟨_, rfl⟩
      obtain ⟨e, he⟩ := hstep
      unfold foldlME
      rw [he]
      exact ⟨e, rfl⟩

theorem extract_rows_all_skip {df : DataFrame} {u f t : String}
    {cm : ColMap} {byOffset : List (ℕ × PyVal)} {wnc wac : PyVal}
    (hb : build_column_map df.columns = Except.ok (cm, [], byOffset))
    (hwn : cm.ward_number = Option.some wnc)
    (hwa : cm.ward_name = Option.some wac)
    (hbo : byOffset ≠ [])
    (h : ∀ r ∈ df.rows, capRowSkipped wnc wac r) :
    extract_rows df Option.none u f t = Except.ok [] := by
  unfold extract_rows
  rw [hb]
  show (match cm.ward_number, cm.ward_name with
    | Option.some wardNumCol, Option.some wardNameCol =>
      if ([] : List (ℤ × PyVal)) = [] ∧ byOffset = [] then
        Except.error (PyErr.runtimeError
          "Year columns not found (expected Year 1..10 or actual years like 2024).")
      else
        foldlME (processCapRow cm wardNumCol wardNameCol [] byOffset
          Option.none u f t) df.rows []
    | _, _ =>
      Except.error (PyErr.runtimeError "Ward columns not found in the worksheet."))
    = Except.ok []
  rw [hwn, hwa]
  show (if ([] : List (ℤ × PyVal)) = [] ∧ byOffset = [] then
      Except.error (PyErr.runtimeError
        "Year columns not found (expected Year 1..10 or actual years like 2024).")
    else
      foldlME (processCapRow cm wnc wac [] byOffset Option.none u f t)
        df.rows [])
    = Except.ok []
  rw [if_neg (fun hc => hbo hc.2)]
  exact foldlME_all_skip df.rows h []

theorem extract_rows_nonskip_err {df : DataFrame} {u f t : String}
    {cm : ColMap} {byOffset : List (ℕ × PyVal)} {wnc wac : PyVal}
    (hb : build_column_map df.columns = Except.ok (cm, [], byOffset))
    (hwn : cm.ward_number = Option.some wnc)
    (hwa : cm.ward_name = Option.some wac)
    (hbo : byOffset ≠ [])
    (h : ∃ r ∈ df.rows, ¬ capRowSkipped wnc wac r) :
    ∃ e, extract_rows df Option.none u f t = Except.error e := by
  unfold extract_rows
  rw [hb]
  show ∃ e, (match cm.ward_number, cm.ward_name with
    | Option.some wardNumCol, Option.some wardNameCol =>
      if ([] : List (ℤ × PyVal)) = [] ∧ byOffset = [] then
        Except.error (PyErr.runtimeError
          "Year columns not found (expected Year 1..10 or actual years like 2024).")
      else
        foldlME (processCapRow cm wardNumCol wardNameCol [] byOffset
          Option.none u f t) df.rows []
    | _, _ =>
      Except.error (PyErr.runtimeError "Ward columns not found in the worksheet."))
    = Except.error e
  rw [hwn, hwa]
  show ∃ e, (if ([] : List (ℤ × PyVal)) = [] ∧ byOffset = [] then
      Except.error (PyErr.runtimeError
        "Year columns not found (expected Year 1..10 or actual years like 2024).")
    else
      foldlME (processCapRow cm wnc wac [] byOffset Option.none u f t)
        df.rows [])
    = Except.error e
  rw [if_neg (fun hc => hbo hc.2)]
  exact foldlME_nonskip_err df.rows h []

end CapitalByWard

/-- C6: both `parse_number` helpers return null on empty / NA / N/A /
`-` / unparsable text, strip the currency symbol and thousands
separators, negate a parenthesized value, and otherwise return the
parsed magnitude unchanged with no unit scaling; zero parses as 0.0,
not null. -/
theorem claim_C6 :
    (CapitalByWard.parse_number (PyVal.str "$1,234.56") =
      Option.some (PyFloat.fin (mkRat 123456 100))) ∧
    (CapitalByWard.parse_number (PyVal.str "(500)") =
      Option.some (PyFloat.fin (-500))) ∧
    (CapitalByWard.parse_number (PyVal.str "N/A") = Option.none) ∧
    (CapitalByWard.parse_number (PyVal.int 0) =
      Option.some (PyFloat.fin 0)) ∧
    (CapitalByWard.parse_number (PyVal.str "") = Option.none) ∧
    (CapitalByWard.parse_number (PyVal.str "NA") = Option.none) ∧
    (CapitalByWard.parse_number (PyVal.str "-") = Option.none) ∧
    (CapitalByWard.parse_number (PyVal.str "not a number") = Option.none) ∧
    (∀ n : ℤ, CapitalByWard.parse_number (PyVal.int n) =
      Option.some (PyFloat.fin (n : ℚ))) ∧
    (∀ q : ℚ, CapitalByWard.parse_number (PyVal.float (PyFloat.fin q)) =
      Option.some (PyFloat.fin q)) ∧
    (FinancialReturn.parse_number (PyVal.str "$1,234.56") =
      Option.some (PyFloat.fin (mkRat 123456 100))) ∧
    (FinancialReturn.parse_number (PyVal.str "(500)") =
      Option.some (PyFloat.fin (-500))) ∧
    (FinancialReturn.parse_number (PyVal.str "N/A") = Option.none) ∧
    (FinancialReturn.parse_number (PyVal.int 0) =
      Option.some (PyFloat.fin 0)) ∧
    (FinancialReturn.parse_number (PyVal.str "") = Option.none) ∧
    (FinancialReturn.parse_number (PyVal.str "NA") = Option.none) ∧
    (FinancialReturn.parse_number (PyVal.str "-") = Option.none) ∧
    (FinancialReturn.parse_number (PyVal.str "not a number") = Option.none) ∧
    (∀ n : ℤ, FinancialReturn.parse_number (PyVal.int n) =
      Option.some (PyFloat.fin (n : ℚ))) ∧
    (∀ q : ℚ, FinancialReturn.parse_number (PyVal.float (PyFloat.fin q)) =
      Option.some (PyFloat.fin q)) := by
  refine ⟨by decide, by decide, by decide, by decide, by decide, by decide,
    by decide, by decide, fun n => rfl, fun q => rfl,
    by decide, by decide, by decide, by decide, by decide, by decide,
    by decide, by decide, fun n => rfl, fun q => rfl⟩

namespace CapitalByWard

/-- C7 counterexample: the claim admits the string `"2100"` as a year
in [2000, 2100], but `detect_year_value` matches strings against
`20\d{2}` and returns null on `"2100"`. -/
theorem claim_C7_counterexample :
    detect_year_value (PyVal.str "2100") = Except.ok Option.none ∧
    (2000 : ℤ) ≤ 2100 ∧ (2100 : ℤ) ≤ 2100 ∧
    detect_year_value (PyVal.int 2100) = Except.ok (Option.some 2100) := by
  refine ⟨by decide, by decide, by decide, by decide⟩

/-- C7 (amended): `detect_year_value` returns the year for a 4-digit
integer or whole finite float in [2000, 2100]; a string is accepted
exactly when its stripped text matches `20\d{2}`, whose value lies in
[2000, 2099] — so the string `"2100"` yields null; every other int,
finite float, string or None yields null, and NaN/±infinity raise (see
C8). -/
theorem claim_C7 :
    (∀ n : ℤ, 2000 ≤ n → n ≤ 2100 →
      detect_year_value (PyVal.int n) = Except.ok (Option.some n)) ∧
    (∀ n : ℤ, ¬(2000 ≤ n ∧ n ≤ 2100) →
      detect_year_value (PyVal.int n) = Except.ok Option.none) ∧
    (∀ q : ℚ, (ratTrunc q : ℚ) = q → 2000 ≤ ratTrunc q → ratTrunc q ≤ 2100 →
      detect_year_value (PyVal.float (PyFloat.fin q)) =
        Except.ok (Option.some (ratTrunc q))) ∧
    (∀ q : ℚ, ¬((ratTrunc q : ℚ) = q ∧ 2000 ≤ ratTrunc q ∧ ratTrunc q ≤ 2100) →
      detect_year_value (PyVal.float (PyFloat.fin q)) =
        Except.ok Option.none) ∧
    (∀ (s : String) (y : ℤ),
      detect_year_value (PyVal.str s) = Except.ok (Option.some y) ↔
        (is20xxL (trimL s.data) = true ∧ y = val20xxL (trimL s.data))) ∧
    (∀ l : List Char, is20xxL l = true →
      2000 ≤ val20xxL l ∧ val20xxL l ≤ 2099) ∧
    detect_year_value (PyVal.str "2100") = Except.ok Option.none ∧
    detect_year_value (PyVal.str " 2024 ") = Except.ok (Option.some 2024) ∧
    detect_year_value PyVal.none = Except.ok Option.none := by
  refine ⟨?_, ?_, ?_, ?_, ?_, ?_, by decide, by decide, by decide⟩
  · intro n h1 h2
    show (if 2000 ≤ n ∧ n ≤ 2100 then Except.ok (Option.some n)
      else Except.ok (year20xxOfText (intRepr n))) = _
    rw [if_pos ⟨h1, h2⟩]
  · intro n h
    show (if 2000 ≤ n ∧ n ≤ 2100 then Except.ok (Option.some n)
      else Except.ok (year20xxOfText (intRepr n))) = _
    rw [if_neg h]
    exact congrArg Except.ok (year20xx_intRepr (by omega))
  · intro q h1 h2 h3
    show (if (ratTrunc q : ℚ) = q ∧ 2000 ≤ ratTrunc q ∧ ratTrunc q ≤ 2100
      then Except.ok (Option.some (ratTrunc q))
      else Except.ok (year20xxOfText (floatRepr q).data)) = _
    rw [if_pos ⟨h1, h2, h3⟩]
  · intro q h
    show (if (ratTrunc q : ℚ) = q ∧ 2000 ≤ ratTrunc q ∧ ratTrunc q ≤ 2100
      then Except.ok (Option.some (ratTrunc q))
      else Except.ok (year20xxOfText (floatRepr q).data)) = _
    rw [if_neg h]
    exact congrArg Except.ok
      (year20xx_of_dot (floatRepr_has_dot q) (floatRepr_no_ws q))
  · intro s y
    show Except.ok (year20xxOfText s.data) = _ ↔ _
    unfold year20xxOfText
    by_cases h20 : is20xxL (trimL s.data) = true
    · rw [if_pos h20]
      constructor
      · intro h
        exact ⟨h20, (Option.some.inj (Except.ok.inj h)).symm⟩
      · rintro ⟨-, hy⟩
        rw [hy]
    · rw [if_neg h20]
      constructor
      · intro h
        exact absurd (Except.ok.inj h) (by simp)
      · rintro ⟨h, -⟩
        exact absurd h h20
  · exact fun l h => val20xx_range h

/-- C7 witness: the integer 2024 is accepted. -/
theorem claim_C7_witness :
    detect_year_value (PyVal.int 2024) = Except.ok (Option.some 2024) :=
  claim_C7.1 2024 (by decide) (by decide)

end CapitalByWard

/-- C8 (code bug): the spec says the parsing helpers never raise, but
`detect_year_value` evaluates `int(column)` on NaN, raising ValueError,
and `parse_ward_number` evaluates `int(value)` on an infinity, raising
OverflowError; the amount and date helpers are total as claimed. -/
theorem claim_C8 :
    CapitalByWard.detect_year_value (PyVal.float PyFloat.nan) =
      Except.error (PyErr.valueError "cannot convert float NaN to integer") ∧
    CapitalByWard.detect_year_value (PyVal.float PyFloat.inf) =
      Except.error
        (PyErr.overflowError "cannot convert float infinity to integer") ∧
    CapitalByWard.parse_ward_number (PyVal.float PyFloat.inf) =
      Except.error
        (PyErr.overflowError "cannot convert float infinity to integer") ∧
    CapitalByWard.parse_ward_number (PyVal.float PyFloat.nan) =
      Except.ok Option.none ∧
    CapitalByWard.parse_number (PyVal.float PyFloat.nan) = Option.none ∧
    FinancialReturn.parse_number (PyVal.float PyFloat.inf) =
      Option.some PyFloat.inf ∧
    CouncilVoting.parse_date (PyVal.float PyFloat.inf) = Option.none ∧
    CouncilVoting.parse_date (PyVal.str "2025-05-22 16:50 PM") =
      Option.some "2025-05-22" ∧
    CouncilVoting.parse_date (PyVal.str "not a date") = Option.none := by
  refine ⟨by decide, by decide, by decide, by decide, by decide, by decide,
    by decide, by decide, by decide⟩

namespace CapitalByWard

/-- An offset column whose parsed amount is null or zero contributes no
record to the row. -/
theorem offsetStep_skip {r : Row} {wn : ℤ} {wname : String}
    {pn pj cat : Option String} {b : ℤ} {u f t : String}
    {recs : List CapRecord} {ki : ℕ × PyVal}
    (h : parse_number (rowGet r ki.2) = Option.none ∨
      ∃ a, parse_number (rowGet r ki.2) = Option.some a ∧
        pyIsZero a = true) :
    offsetStep r wn wname pn pj cat b u f t recs ki = recs := by
  unfold offsetStep
  split
  · rfl
  · rename_i amtRaw heq
    rcases h with h | ⟨a, ha, hz⟩
    · rw [h] at heq
      exact absurd heq (by simp)
    · rw [ha] at heq
      rw [if_pos (show pyIsZero amtRaw = true from Option.some.inj heq ▸ hz)]

/-- C4 (corrected): in offset mode with base year 2024 and Year 1..3
values [10, 0, -5], extraction emits exactly the records for fiscal
years 2024 and 2026 and skips the zero for 2025 — but their amounts are
scaled by 1000 (10000 and -5000), not the raw 10 and -5 the claim
states. The counterexample exhibits the scaled amounts. -/
theorem claim_C4_counterexample :
    (extract_rows capDfC4 (Option.some 2024) "u" "f" "t" =
      Except.ok [capRecC4a, capRecC4b]) ∧
    capRecC4a.amount ≠ PyFloat.fin 10 ∧
    capRecC4b.amount ≠ PyFloat.fin (-5) := by
  refine ⟨by decide, by decide, by decide⟩

/-- C4 (amended): with base year 2024 and Year 1..3 values [10, 0, -5]
in a valid-ward row, extraction emits exactly two records — fiscal year
2024 with amount 10 * 1000 = 10000 and fiscal year 2026 with amount
-5 * 1000 = -5000 — while the zero for 2025 produces no record; in
general an offset column whose parsed amount is null or exactly zero
contributes nothing, and no record of any successful extraction carries
a zero amount. -/
theorem claim_C4 :
    (extract_rows capDfC4 (Option.some 2024) "u" "f" "t" =
      Except.ok [capRecC4a, capRecC4b]) ∧
    (∀ (r : Row) (wn : ℤ) (wname : String) (pn pj cat : Option String)
      (b : ℤ) (u f t : String) (recs : List CapRecord) (ki : ℕ × PyVal),
      (parse_number (rowGet r ki.2) = Option.none ∨
        ∃ a, parse_number (rowGet r ki.2) = Option.some a ∧
          pyIsZero a = true) →
      offsetStep r wn wname pn pj cat b u f t recs ki = recs) ∧
    (∀ df ys u f t recs,
      extract_rows df ys u f t = Except.ok recs →
      ∀ rec ∈ recs, pyIsZero rec.amount = false) := by
  refine ⟨by decide, ?_, ?_⟩
  · intro r wn wname pn pj cat b u f t recs ki h
    exact offsetStep_skip h
  · intro df ys u f t recs h
    exact extract_rows_nonzero h

/-- Witness for C4: the skip rule fires on the zero-valued Year 2 cell
of the concrete row, and the concrete first record's amount is
non-zero. -/
theorem claim_C4_witness :
    (offsetStep capRowC4 1 "W1" Option.none Option.none Option.none 2024
      "u" "f" "t" [] (2, PyVal.str "Year 2") = []) ∧
    pyIsZero capRecC4a.amount = false :=
  ⟨claim_C4.2.1 capRowC4 1 "W1" Option.none Option.none Option.none 2024
      "u" "f" "t" [] (2, PyVal.str "Year 2")
      (Or.inr ⟨PyFloat.fin 0, by decide, by decide⟩),
   claim_C4.2.2 capDfC4 (Option.some 2024) "u" "f" "t"
      [capRecC4a, capRecC4b] claim_C4.1 capRecC4a
      (List.mem_cons_self _ _)⟩

/-- C5 counterexample: the raise condition is wrong in both directions.
`capDfC5` is in offset mode (only a `Year 1` column) with no base year,
yet extraction returns an empty result instead of raising, because the
base-year error is raised per data row and the sheet has none; and
`run_etl` raises its base-year error before the worksheet is even read,
so a missing base year is fatal regardless of which mode the sheet
would use. -/
theorem claim_C5_counterexample :
    (build_column_map capDfC5.columns =
      Except.ok (cmC5, [], [(1, PyVal.str "Year 1")])) ∧
    (extract_rows capDfC5 Option.none "u" "f" "t" = Except.ok []) ∧
    (runEtlBaseCheck Option.none = Except.error
      (PyErr.runtimeError
        "Base year could not be inferred. Provide --base-year explicitly.")) := by
  refine ⟨by decide, by decide, by decide⟩

/-- C5 (amended): explicit-year mode takes precedence — whenever the
column map yields explicit year columns, extraction never reads
`year_start`; in offset mode every emitted record maps column `year k`
to fiscal year `base_year + k - 1`; the base year is the caller's
argument when given, else the first of two `20\d{2}` tokens of the
resource name and filename; `run_etl`'s base-year check fails exactly
when no base year was established, before reading the sheet and
regardless of mode; and `extract_rows` itself, run without a base year
on an offset-mode sheet, succeeds with an empty result when every data
row is skipped by the ward checks and raises exactly when some data
row survives them. -/
theorem claim_C5 :
    (∀ (df : DataFrame) (u f t : String) (cm : ColMap)
      (byYear : List (ℤ × PyVal)) (byOffset : List (ℕ × PyVal)),
      build_column_map df.columns = Except.ok (cm, byYear, byOffset) →
      byYear ≠ [] →
      ∀ ys ys', extract_rows df ys u f t = extract_rows df ys' u f t) ∧
    (∀ (df : DataFrame) (u f t : String) (b : ℤ) (recs : List CapRecord)
      (cm : ColMap) (byOffset : List (ℕ × PyVal)),
      build_column_map df.columns = Except.ok (cm, [], byOffset) →
      extract_rows df (Option.some b) u f t = Except.ok recs →
      ∀ rec ∈ recs, ∃ k : ℤ,
        rec.year_offset = Option.some k ∧ rec.fiscal_year = b + (k - 1)) ∧
    ((∀ (y : ℤ) (rn fn : String),
        inferBaseYear (Option.some y) rn fn = Option.some y) ∧
      (∀ rn fn : String, inferBaseYear Option.none rn fn =
        (extract_year_range (rn ++ " " ++ fn)).1) ∧
      (∀ (s : String) (a b : ℤ) (rest : List ℤ),
        findAll20xx s.data = a :: b :: rest →
        extract_year_range s = (Option.some a, Option.some b)) ∧
      extract_year_range "capital-plan-2024-2033.xlsx" =
        (Option.some 2024, Option.some 2033)) ∧
    (∀ ys : Option ℤ,
      (∃ e, runEtlBaseCheck ys = Except.error e) ↔ ys = Option.none) ∧
    (∀ (df : DataFrame) (u f t : String) (cm : ColMap)
      (byOffset : List (ℕ × PyVal)) (wnc wac : PyVal),
      build_column_map df.columns = Except.ok (cm, [], byOffset) →
      cm.ward_number = Option.some wnc → cm.ward_name = Option.some wac →
      byOffset ≠ [] →
      (∀ r ∈ df.rows, capRowSkipped wnc wac r) →
      extract_rows df Option.none u f t = Except.ok []) ∧
    (∀ (df : DataFrame) (u f t : String) (cm : ColMap)
      (byOffset : List (ℕ × PyVal)) (wnc wac : PyVal),
      build_column_map df.columns = Except.ok (cm, [], byOffset) →
      cm.ward_number = Option.some wnc → cm.ward_name = Option.some wac →
      byOffset ≠ [] →
      (∃ r ∈ df.rows, ¬ capRowSkipped wnc wac r) →
      ∃ e, extract_rows df Option.none u f t = Except.error e) := by
  refine ⟨?_, ?_, ⟨?_, ?_, ?_, by decide⟩, ?_, ?_, ?_⟩
  · intro df u f t cm byYear byOffset hb hby ys ys'
    exact extract_rows_explicit_ys hb hby ys ys'
  · intro df u f t b recs cm byOffset hb h
    exact extract_rows_offset_map hb h
  · intro y rn fn
    rfl
  · intro rn fn
    rfl
  · intro s a b rest h
    unfold extract_year_range
    rw [h]
  · intro ys
    constructor
    · rintro ⟨e, he⟩
      cases ys with
      | none => rfl
      | some y => exact absurd he (by simp [runEtlBaseCheck])
    · rintro rfl
      exact ⟨_, rfl⟩
  · intro df u f t cm byOffset wnc wac hb hwn hwa hbo h
    exact extract_rows_all_skip hb hwn hwa hbo h
  · intro df u f t cm byOffset wnc wac hb hwn hwa hbo h
    exact extract_rows_nonskip_err hb hwn hwa hbo h

/-- Witness for C5 at concrete worksheets: year_start is irrelevant on
the explicit-mode sheet, the base-year check fails on a missing base
year, the empty offset-mode sheet extracts to an empty list without a
base year, and the one-valid-row offset-mode sheet raises without a
base year. -/
theorem claim_C5_witness :
    (extract_rows capDfC5x (Option.some 5) "u" "f" "t" =
      extract_rows capDfC5x Option.none "u" "f" "t") ∧
    (∃ e, runEtlBaseCheck Option.none = Except.error e) ∧
    (extract_rows capDfC5 Option.none "u" "f" "t" = Except.ok []) ∧
    (∃ e, extract_rows capDfC5n Option.none "u" "f" "t" =
      Except.error e) := by
  have h := claim_C5
  refine ⟨h.1 capDfC5x "u" "f" "t" cmC5 [(2024, PyVal.int 2024)] []
      (by decide) (by decide) (Option.some 5) Option.none,
    (h.2.2.2.1 Option.none).mpr rfl,
    h.2.2.2.2.1 capDfC5 "u" "f" "t" cmC5 [(1, PyVal.str "Year 1")]
      (PyVal.str "Ward Number") (PyVal.str "Ward")
      (by decide) rfl rfl (by decide)
      (fun r hr => absurd hr (List.not_mem_nil r)),
    h.2.2.2.2.2 capDfC5n "u" "f" "t" cmC5 [(1, PyVal.str "Year 1")]
      (PyVal.str "Ward Number") (PyVal.str "Ward")
      (by decide) rfl rfl (by decide) ⟨capRowC4, by decide, ?_⟩⟩
  intro hsk
  have hws : wardStep (PyVal.str "Ward Number") capRowC4 =
      Except.ok (Option.some 1) := by decide
  rcases hsk with hs | ⟨wn, hw, hskip⟩
  · rw [hws] at hs
    exact absurd hs (by simp)
  · rcases hskip with hs | hs
    · exact absurd hs (by decide)
    · exact absurd hs (by decide)

end CapitalByWard

namespace FinancialReturn

theorem batchLoop_eq {ρ α : Type} (process : ρ → StepOutcome α)
    (resources : List ρ) (acc : BatchAcc ρ α) :
    List.foldl (batchStep process) acc resources =
      ⟨acc.all_records ++ (resources.filterMap (succRecs process)).flatten,
       acc.processed ++ resources.filterMap (procEntry process),
       acc.failed ++ resources.filterMap (failMsg process)⟩ := by
  induction resources generalizing acc with
  | nil => simp
  | cons a tl ih =>
    simp only [List.foldl_cons]
    rw [ih]
    cases hp : process a with
    | success recs =>
      simp [batchStep, succRecs, procEntry, failMsg, hp, List.append_assoc]
    | skipped =>
      simp [batchStep, succRecs, procEntry, failMsg, hp]
    | failed msg =>
      simp [batchStep, succRecs, procEntry, failMsg, hp, List.append_assoc]

theorem runBatchLoop_eq {ρ α : Type} (process : ρ → StepOutcome α)
    (resources : List ρ) :
    runBatchLoop process resources =
      ⟨(resources.filterMap (succRecs process)).flatten,
       resources.filterMap (procEntry process),
       resources.filterMap (failMsg process)⟩ := by
  unfold runBatchLoop
  rw [batchLoop_eq]
  rfl

theorem runBatch_error_iff {ρ α : Type} (process : ρ → StepOutcome α)
    (resources : List ρ) :
    (∃ e, runBatch process resources = Except.error e) ↔
      (runBatchLoop process resources).all_records = [] := by
  constructor
  · rintro ⟨e, he⟩
    unfold runBatch at he
    split at he
    · rename_i heq
      exact heq
    · exact absurd he (by simp)
  · intro h
    refine ⟨PyErr.runtimeError "No records parsed from any resources.", ?_⟩
    unfold runBatch
    rw [h]

/-- C9: a failure on one resource of the batch only appends that
resource to the failed side list — the records and processed entries of
the remaining resources are exactly those of the batch without it;
`all_records` collects every successfully parsed record of the batch;
and the run raises if and only if `all_records` is empty at the end of
the loop, i.e. no resource produced any record. -/
theorem claim_C9 {ρ α : Type} :
    (∀ (process : ρ → StepOutcome α) (pre post : List ρ) (r : ρ)
      (msg : String), process r = StepOutcome.failed msg →
      (runBatchLoop process (pre ++ r :: post)).all_records =
        (runBatchLoop process (pre ++ post)).all_records ∧
      (runBatchLoop process (pre ++ r :: post)).processed =
        (runBatchLoop process (pre ++ post)).processed ∧
      (runBatchLoop process (pre ++ r :: post)).failed =
        (runBatchLoop process pre).failed ++ [(r, msg)] ++
          (runBatchLoop process post).failed) ∧
    (∀ (process : ρ → StepOutcome α) (resources : List ρ),
      (runBatchLoop process resources).all_records =
        (resources.filterMap (succRecs process)).flatten) ∧
    (∀ (process : ρ → StepOutcome α) (resources : List ρ),
      (∃ e, runBatch process resources = Except.error e) ↔
        (runBatchLoop process resources).all_records = []) := by
  refine ⟨?_, ?_, ?_⟩
  · intro process pre post r msg hr
    refine ⟨?_, ?_, ?_⟩
    · rw [runBatchLoop_eq, runBatchLoop_eq]
      simp [succRecs, hr]
    · rw [runBatchLoop_eq, runBatchLoop_eq]
      simp [procEntry, hr]
    · rw [runBatchLoop_eq, runBatchLoop_eq, runBatchLoop_eq]
      simp [failMsg, hr]
  · intro process resources
    rw [runBatchLoop_eq]
  · intro process resources
    exact runBatch_error_iff process resources

/-- Witness for C9: on the concrete three-resource batch the failure of
resource 0 is isolated, and the batch without any successful record
raises. -/
theorem claim_C9_witness :
    ((runBatchLoop procC9 (0 :: 1 :: 2 :: [])).all_records =
      (runBatchLoop procC9 (1 :: 2 :: [])).all_records ∧
     (runBatchLoop procC9 (0 :: 1 :: 2 :: [])).processed =
      (runBatchLoop procC9 (1 :: 2 :: [])).processed ∧
     (runBatchLoop procC9 (0 :: 1 :: 2 :: [])).failed =
      (runBatchLoop procC9 ([] : List ℕ)).failed ++ [(0, "boom")] ++
        (runBatchLoop procC9 (1 :: 2 :: [])).failed) ∧
    (∃ e, runBatch procC9 (0 :: 2 :: []) = Except.error e) :=
  ⟨claim_C9.1 procC9 [] (1 :: 2 :: []) 0 "boom" rfl,
   (claim_C9.2.2 procC9 (0 :: 2 :: [])).mpr (by decide)⟩

end FinancialReturn

theorem stIns_mem {α : Type} (le : α → α → Bool) (a x : α) (l : List α) :
    x ∈ stIns le a l ↔ x = a ∨ x ∈ l := by
  induction l with
  | nil => simp [stIns]
  | cons b t ih =>
    unfold stIns
    by_cases h : le a b = true
    · rw [if_pos h]
      simp [List.mem_cons]
    · rw [if_neg h]
      simp only [List.mem_cons, ih]
      tauto

theorem stSort_mem {α : Type} (le : α → α → Bool) (x : α) (l : List α) :
    x ∈ stSort le l ↔ x ∈ l := by
  induction l with
  | nil => simp [stSort]
  | cons a t ih =>
    unfold stSort
    rw [stIns_mem]
    simp only [List.mem_cons, ih]

theorem stIns_pairwise {α : Type} (le : α → α → Bool)
    (htot : ∀ a b, le a b = true ∨ le b a = true)
    (htr : ∀ a b c, le a b = true → le b c = true → le a c = true)
    (a : α) (l : List α) (h : l.Pairwise (fun x y => le x y = true)) :
    (stIns le a l).Pairwise (fun x y => le x y = true) := by
  induction l with
  | nil => simp [stIns]
  | cons b t ih =>
    unfold stIns
    rcases List.pairwise_cons.mp h with ⟨hb, ht⟩
    by_cases hab : le a b = true
    · rw [if_pos hab]
      refine List.pairwise_cons.mpr ⟨?_, h⟩
      intro c hc
      rcases List.mem_cons.mp hc with rfl | hc
      · exact hab
      · exact htr a b c hab (hb c hc)
    · rw [if_neg hab]
      have hba : le b a = true := (htot a b).resolve_left hab
      refine List.pairwise_cons.mpr ⟨?_, ih ht⟩
      intro c hc
      rcases (stIns_mem le a c t).mp hc with rfl | hc
      · exact hba
      · exact hb c hc

theorem stSort_pairwise {α : Type} (le : α → α → Bool)
    (htot : ∀ a b, le a b = true ∨ le b a = true)
    (htr : ∀ a b c, le a b = true → le b c = true → le a c = true)
    (l : List α) :
    (stSort le l).Pairwise (fun x y => le x y = true) := by
  induction l with
  | nil => simp [stSort]
  | cons a t ih => exact stIns_pairwise le htot htr a _ ih

namespace PublishGcs

theorem lastSlice_mem {α : Type} {k : ℕ} {l : List α} {x : α}
    (h : x ∈ lastSlice k l) : x ∈ l := by
  unfold lastSlice at h
  split at h
  · exact h
  · exact List.drop_subset _ _ h

theorem addPercentages_mem {total : ℚ} {l : List Group} {g : PGroup}
    (h : g ∈ addPercentages total l) :
    ∃ g0 ∈ l, g.label = g0.label ∧ g.amount = g0.amount ∧
      g.percentage = (if 0 < total then g0.amount / total * 100 else 0) := by
  unfold addPercentages at h
  rcases List.mem_map.mp h with ⟨g0, hg0, rfl⟩
  exact ⟨g0, hg0, rfl, rfl, rfl⟩

theorem sortedDescOf_mem {records : List Group} {g : Group}
    (h : g ∈ sortedDescOf records) : g ∈ records ∧ 0 < g.amount := by
  unfold sortedDescOf at h
  have h2 := (stSort_mem _ _ _).mp h
  unfold positivesOf at h2
  have h3 := List.mem_filter.mp h2
  exact ⟨h3.1, of_decide_eq_true h3.2⟩

theorem topGroupsOf_mem {records : List Group} {k : ℕ} {g : Group}
    (h : g ∈ topGroupsOf records k) : g ∈ records ∧ 0 < g.amount :=
  sortedDescOf_mem (List.take_subset _ _ h)

theorem bottomGroupsOf_mem {records : List Group} {k : ℕ} {g : Group}
    (h : g ∈ bottomGroupsOf records k) :
    (g ∈ records ∧ 0 < g.amount) ∧
      g.label ∉ (topGroupsOf records k).map Group.label := by
  unfold bottomGroupsOf at h
  have h2 := (stSort_mem _ _ _).mp h
  have h3 := List.mem_filter.mp h2
  exact ⟨sortedDescOf_mem (lastSlice_mem h3.1), of_decide_eq_true h3.2⟩

theorem sortedDescOf_pairwise (records : List Group) :
    (sortedDescOf records).Pairwise (fun a b => b.amount ≤ a.amount) := by
  unfold sortedDescOf
  refine List.Pairwise.imp ?_ (stSort_pairwise _ ?_ ?_ _)
  · intro a b hab
    exact of_decide_eq_true hab
  · intro a b
    rcases le_total b.amount a.amount with h | h
    · exact Or.inl (decide_eq_true h)
    · exact Or.inr (decide_eq_true h)
  · intro a b c hab hbc
    exact decide_eq_true (le_trans (of_decide_eq_true hbc) (of_decide_eq_true hab))

theorem bottomGroupsOf_pairwise (records : List Group) (k : ℕ) :
    (bottomGroupsOf records k).Pairwise (fun a b => a.amount ≤ b.amount) := by
  unfold bottomGroupsOf
  refine List.Pairwise.imp ?_ (stSort_pairwise _ ?_ ?_ _)
  · intro a b hab
    exact of_decide_eq_true hab
  · intro a b
    rcases le_total a.amount b.amount with h | h
    · exact Or.inl (decide_eq_true h)
    · exact Or.inr (decide_eq_true h)
  · intro a b c hab hbc
    exact decide_eq_true (le_trans (of_decide_eq_true hab) (of_decide_eq_true hbc))

/-- Labels survive `add_percentages`. -/
theorem addPercentages_labels (total : ℚ) (l : List Group) :
    (addPercentages total l).map PGroup.label = l.map Group.label := by
  unfold addPercentages
  rw [List.map_map]
  rfl

/-- C3: the top/bottom grouping keeps only strictly positive amounts
drawn from the input aggregates, emits topGroups as the first k of the
descending sort, emits bottomGroups pairwise label-disjoint from
topGroups and sorted ascending, and attaches
`percentage = amount / total * 100` (0 when the positive total is 0) to
every emitted group; on [("A",50),("B",30),("C",20)] with k = 2 the
result is total 100, topGroups A (50%) and B (30%), and bottomGroups
exactly C (20%), containing neither A nor B. -/
theorem claim_C3 :
    (∀ (records : List Group) (k : ℕ) (total : ℚ)
      (topP botP : List PGroup),
      build_top_bottom_groups_money_flow records k = (total, topP, botP) →
      total = ((positivesOf records).map Group.amount).sum ∧
      (∀ g ∈ topP ++ botP, 0 < g.amount ∧
        ∃ g0 ∈ records, g0.label = g.label ∧ g0.amount = g.amount) ∧
      topP.Pairwise (fun a b => b.amount ≤ a.amount) ∧
      botP.Pairwise (fun a b => a.amount ≤ b.amount) ∧
      topP.length ≤ k ∧
      (∀ g ∈ botP, ∀ g' ∈ topP, g.label ≠ g'.label) ∧
      (∀ g ∈ topP ++ botP,
        g.percentage = if 0 < total then g.amount / total * 100 else 0)) ∧
    build_top_bottom_groups_money_flow recsC3 2 =
      (100, [⟨"A", 50, 50⟩, ⟨"B", 30, 30⟩], [⟨"C", 20, 20⟩]) := by
  constructor
  · intro records k total topP botP h
    unfold build_top_bottom_groups_money_flow at h
    obtain ⟨ht, hA, hB⟩ : totalOf records = total ∧
        addPercentages (totalOf records) (topGroupsOf records k) = topP ∧
        addPercentages (totalOf records) (bottomGroupsOf records k) = botP := by
      simpa [Prod.ext_iff] using h
    subst ht
    subst hA
    subst hB
    refine ⟨rfl, ?_, ?_, ?_, ?_, ?_, ?_⟩
    · intro g hg
      rcases List.mem_append.mp hg with hg | hg
      · rcases addPercentages_mem hg with ⟨g0, hg0, hl, ha, hp⟩
        rcases topGroupsOf_mem hg0 with ⟨hrec, hpos⟩
        exact ⟨ha ▸ hpos, g0, hrec, hl.symm, ha.symm⟩
      · rcases addPercentages_mem hg with ⟨g0, hg0, hl, ha, hp⟩
        rcases bottomGroupsOf_mem hg0 with ⟨⟨hrec, hpos⟩, hnot⟩
        exact ⟨ha ▸ hpos, g0, hrec, hl.symm, ha.symm⟩
    · refine List.pairwise_map.mpr ?_
      exact List.Pairwise.sublist (List.take_sublist _ _)
        (sortedDescOf_pairwise records)
    · exact List.pairwise_map.mpr (bottomGroupsOf_pairwise records k)
    · have hl : (addPercentages (totalOf records)
          (topGroupsOf records k)).length = (topGroupsOf records k).length := by
        simp [addPercentages]
      rw [hl]
      unfold topGroupsOf
      exact le_trans (le_of_eq (List.length_take _ _)) (min_le_left _ _)
    · intro g hg g' hg'
      rcases addPercentages_mem hg with ⟨g0, hg0, hl, ha, hp⟩
      rcases addPercentages_mem hg' with ⟨g0', hg0', hl', ha', hp'⟩
      rcases bottomGroupsOf_mem hg0 with ⟨hin, hnot⟩
      intro heq
      apply hnot
      rw [← hl, heq, hl']
      exact List.mem_map_of_mem Group.label hg0'
    · intro g hg
      have hmem : ∃ g0 : Group, g.amount = g0.amount ∧
          g.percentage = (if 0 < totalOf records then
            g0.amount / totalOf records * 100 else 0) := by
        rcases List.mem_append.mp hg with hg | hg
        · rcases addPercentages_mem hg with ⟨g0, hg0, hl, ha, hp⟩
          exact ⟨g0, ha, hp⟩
        · rcases addPercentages_mem hg with ⟨g0, hg0, hl, ha, hp⟩
          exact ⟨g0, ha, hp⟩
      rcases hmem with ⟨g0, ha, hp⟩
      rw [hp, ha]
  · have htop : topGroupsOf recsC3 2 = [⟨"A", 50⟩, ⟨"B", 30⟩] := by decide
    have hbot : bottomGroupsOf recsC3 2 = [⟨"C", 20⟩] := by decide
    have hps : positivesOf recsC3 = recsC3 := by decide
    have htot : totalOf recsC3 = 100 := by
      unfold totalOf
      rw [hps]
      show (50 : ℚ) + (30 + (20 + 0)) = 100
      norm_num
    unfold build_top_bottom_groups_money_flow
    rw [htot, htop, hbot]
    unfold addPercentages
    simp only [List.map_cons, List.map_nil]
    norm_num

/-- Witness for C3: the general grouping facts applied to the concrete
run — topGroups descending, bottomGroups label-disjoint from
topGroups. -/
theorem claim_C3_witness :
    (([⟨"A", 50, 50⟩, ⟨"B", 30, 30⟩] : List PGroup).Pairwise
      (fun a b => b.amount ≤ a.amount)) ∧
    (∀ g ∈ ([⟨"C", 20, 20⟩] : List PGroup),
      ∀ g' ∈ ([⟨"A", 50, 50⟩, ⟨"B", 30, 30⟩] : List PGroup),
      g.label ≠ g'.label) := by
  have h := claim_C3
  have hg := h.1 recsC3 2 100 [⟨"A", 50, 50⟩, ⟨"B", 30, 30⟩]
    [⟨"C", 20, 20⟩] h.2
  exact ⟨hg.2.2.1, hg.2.2.2.2.2.1⟩

end PublishGcs

end StdJourn

